import Mathlib

/-!
Verification development for the `moy-sekret` file-encryption tool.

The Rust sources under `src/` are shallowly embedded here:

* Paths and strings are modelled as `List Char` (`Str`); machine bytes as
  `Nat` values together with `< 256` bounds where they matter.
* The file system is an explicit state (`FS`): an association list from
  paths to file contents plus a list of existing directories.  Ambient
  I/O facts that the program merely consults (home directory, path
  canonicalisation, possible I/O failures, randomly generated key pairs
  and nonces) are supplied by an environment record (`IOEnv`).
* Fallible Rust code returning `Result<_, AnyError>` becomes `Except
  AnyError _`; a `panic!`/`unwrap` on `None` is modelled as a
  distinguished error value.
* The cryptographic primitives used by the code live in external crates
  (sodiumoxide `box_`, `data_encoding` BASE64, `bincode`); they are
  modelled from the spec, see the doc comments on `box_seal`, `box_open`,
  `base64Encode`, `serializeCipher`.
-/

namespace MoySekret

/-! ## Bytes and byte-string arithmetic -/

/-- Strings of the Rust source are modelled as lists of characters. -/
abbrev Str := List Char

/-- Little-endian value of a byte list (first byte least significant). -/
def fromBytesLE : List Nat → Nat
  | [] => 0
  | b :: rest => b + 256 * fromBytesLE rest

/-- Fixed-width little-endian byte encoding of a natural number. -/
def toBytesF : Nat → Nat → List Nat
  | 0, _ => []
  | w + 1, v => v % 256 :: toBytesF w (v / 256)

/-- Bytes are natural numbers below 256. -/
def ValidBytes (l : List Nat) : Prop := ∀ b ∈ l, b < 256

instance : DecidablePred ValidBytes := fun l =>
  inferInstanceAs (Decidable (∀ b ∈ l, b < 256))

theorem fromBytesLE_lt {l : List Nat} (h : ValidBytes l) :
    fromBytesLE l < 256 ^ l.length := by
  induction l with
  | nil => simp [fromBytesLE]
  | cons b rest ih =>
    have hb : b < 256 := h b (by simp)
    have hr : fromBytesLE rest < 256 ^ rest.length :=
      ih (fun x hx => h x (by simp [hx]))
    simp only [fromBytesLE, List.length_cons, pow_succ]
    calc b + 256 * fromBytesLE rest
        ≤ 255 + 256 * fromBytesLE rest := by omega
      _ < 256 * (fromBytesLE rest + 1) := by omega
      _ ≤ 256 * 256 ^ rest.length := by
          have : fromBytesLE rest + 1 ≤ 256 ^ rest.length := hr
          exact Nat.mul_le_mul_left _ this
      _ = 256 ^ rest.length * 256 := by ring

theorem fromBytesLE_inj {l₁ l₂ : List Nat} (hlen : l₁.length = l₂.length)
    (h₁ : ValidBytes l₁) (h₂ : ValidBytes l₂)
    (h : fromBytesLE l₁ = fromBytesLE l₂) : l₁ = l₂ := by
  induction l₁ generalizing l₂ with
  | nil => cases l₂ with
    | nil => rfl
    | cons b r => simp at hlen
  | cons a r ih =>
    cases l₂ with
    | nil => simp at hlen
    | cons b s =>
      have ha : a < 256 := h₁ a (by simp)
      have hb : b < 256 := h₂ b (by simp)
      simp only [fromBytesLE] at h
      have hab : a = b := by omega
      subst hab
      have hrs : fromBytesLE r = fromBytesLE s := by omega
      have := ih (by simpa using hlen)
        (fun x hx => h₁ x (by simp [hx])) (fun x hx => h₂ x (by simp [hx])) hrs
      simp [this]

@[simp] theorem toBytesF_length (w v : Nat) : (toBytesF w v).length = w := by
  induction w generalizing v with
  | zero => rfl
  | succ w ih => simp [toBytesF, ih]

theorem fromBytesLE_toBytesF (w v : Nat) :
    fromBytesLE (toBytesF w v) = v % 256 ^ w := by
  induction w generalizing v with
  | zero => simp [toBytesF, fromBytesLE, Nat.mod_one]
  | succ w ih =>
    have : (256 : Nat) ^ (w + 1) = 256 * 256 ^ w := by ring
    simp only [toBytesF, fromBytesLE, ih, this]
    rw [Nat.mod_mul]

theorem toBytesF_valid (w v : Nat) : ValidBytes (toBytesF w v) := by
  induction w generalizing v with
  | zero => intro b hb; simp [toBytesF] at hb
  | succ w ih =>
    intro b hb
    simp only [toBytesF, List.mem_cons] at hb
    rcases hb with h | h
    · omega
    · exact ih _ b h

theorem toBytesF_inj {w v₁ v₂ : Nat} (h₁ : v₁ < 256 ^ w) (h₂ : v₂ < 256 ^ w)
    (h : toBytesF w v₁ = toBytesF w v₂) : v₁ = v₂ := by
  have := congrArg fromBytesLE h
  rw [fromBytesLE_toBytesF, fromBytesLE_toBytesF,
    Nat.mod_eq_of_lt h₁, Nat.mod_eq_of_lt h₂] at this
  exact this

/-! ## Crypto engine

Modelled from the spec: the implementation of `sodiumoxide::crypto::box_`
(`gen_keypair`, `gen_nonce`, `seal`, `open`) is not part of this
repository; §4.3 of the spec describes it as authenticated public-key
encryption used in a self-sealing mode (the same key pair supplies both
halves), producing confidentiality plus integrity: `open` recovers
exactly the sealed plaintext under the same key pair and nonce, and
fails, returning no bytes, on any tampering of nonce or ciphertext.
The model below realises those properties executably: a keystream XOR
for confidentiality and a position-weighted checksum over `ZMod 257`
(a field, so single-byte changes are always detected) appended as a
26-byte authenticator. -/

/-- Shared key derived from the public/secret halves of the key pair
(the code always passes both halves of one profile's pair). -/
def sharedKey (pk sk : List Nat) : Nat := fromBytesLE (pk ++ sk)

/-- Keystream byte at position `i` for key `k` and nonce value `kn`. -/
def ksByte (k kn i : Nat) : Nat := (k + kn + i) % 256

/-- XOR a byte list against the keystream starting at position `i`. -/
def sxor (k kn : Nat) : Nat → List Nat → List Nat
  | _, [] => []
  | i, b :: rest => (b ^^^ ksByte k kn i) :: sxor k kn (i + 1) rest

@[simp] theorem sxor_length (k kn i : Nat) (l : List Nat) :
    (sxor k kn i l).length = l.length := by
  induction l generalizing i with
  | nil => rfl
  | cons b rest ih => simp [sxor, ih]

theorem sxor_sxor (k kn i : Nat) (l : List Nat) :
    sxor k kn i (sxor k kn i l) = l := by
  induction l generalizing i with
  | nil => rfl
  | cons b rest ih => simp [sxor, ih, Nat.xor_cancel_right]

theorem sxor_valid {l : List Nat} (k kn i : Nat) (h : ValidBytes l) :
    ValidBytes (sxor k kn i l) := by
  induction l generalizing i with
  | nil => intro b hb; simp [sxor] at hb
  | cons b rest ih =>
    intro x hx
    simp only [sxor, List.mem_cons] at hx
    rcases hx with h' | h'
    · subst h'
      have hb : b < 256 := h b (by simp)
      have hk : ksByte k kn i < 256 := Nat.mod_lt _ (by norm_num)
      calc b ^^^ ksByte k kn i < 2 ^ 8 :=
            Nat.xor_lt_two_pow (by simpa using hb) (by simpa using hk)
        _ = 256 := by norm_num
    · exact ih (i + 1) (fun y hy => h y (by simp [hy])) x h'

/-- Position-weighted checksum of a byte list over the field `ZMod 257`;
`256` is invertible there, so changing any single byte changes the sum. -/
def hashL : List Nat → ZMod 257
  | [] => 0
  | b :: rest => (b : ZMod 257) + 256 * hashL rest

/-- Authenticator value for key `k`, nonce `n` and ciphertext body `e`:
the nonce value in the low 24 bytes, the keyed checksum above them. -/
def tagNat (k : Nat) (n e : List Nat) : Nat :=
  fromBytesLE n + 256 ^ 24 * ((k : ZMod 257) + hashL e).val

/-- The 26-byte authenticator appended to the ciphertext body. -/
def tagBytes (k : Nat) (n e : List Nat) : List Nat := toBytesF 26 (tagNat k n e)

/-- Modelled from the spec: `sodiumoxide`'s `box_::seal(m, n, pk, sk)` —
authenticated encryption of `m` under nonce `n` and the shared key of
`(pk, sk)`; returns the ciphertext (body followed by authenticator). -/
def box_seal (m n pk sk : List Nat) : List Nat :=
  let k := sharedKey pk sk
  let e := sxor k (fromBytesLE n) 0 m
  e ++ tagBytes k n e

/-- Modelled from the spec: `sodiumoxide`'s `box_::open(c, n, pk, sk)` —
verifies the authenticator and decrypts, returning `none` (never partial
plaintext) when verification fails. -/
def box_open (c n pk sk : List Nat) : Option (List Nat) :=
  let k := sharedKey pk sk
  if c.length < 26 then none
  else
    let e := c.take (c.length - 26)
    let t := c.drop (c.length - 26)
    if t = tagBytes k n e then some (sxor k (fromBytesLE n) 0 e) else none

theorem box_seal_length (m n pk sk : List Nat) :
    (box_seal m n pk sk).length = m.length + 26 := by
  simp [box_seal, tagBytes]

theorem tagNat_lt {n : List Nat} (k : Nat) (e : List Nat)
    (hn : n.length = 24) (hnv : ValidBytes n) : tagNat k n e < 256 ^ 26 := by
  have h1 : fromBytesLE n < 256 ^ 24 := by
    have := fromBytesLE_lt hnv
    rwa [hn] at this
  have h2 : ((k : ZMod 257) + hashL e).val < 257 := ZMod.val_lt _
  calc tagNat k n e < 256 ^ 24 + 256 ^ 24 * 257 := by
        unfold tagNat
        have := Nat.mul_le_mul_left (256 ^ 24) (Nat.le_of_lt_succ h2)
        omega
    _ ≤ 256 ^ 26 := by norm_num

/-- Splitting `box_open` over an explicit body/authenticator split. -/
theorem box_open_append (E T n pk sk : List Nat) (hT : T.length = 26) :
    box_open (E ++ T) n pk sk
      = if T = tagBytes (sharedKey pk sk) n E
        then some (sxor (sharedKey pk sk) (fromBytesLE n) 0 E) else none := by
  unfold box_open
  have h1 : (E ++ T).length = E.length + 26 := by simp [hT]
  rw [h1, if_neg (by omega)]
  have h2 : E.length + 26 - 26 = E.length := by omega
  rw [h2, List.take_left, List.drop_left]

/-- Round trip of the crypto engine: opening a sealed message under the
same key pair and nonce recovers it exactly. -/
theorem box_open_box_seal (m n pk sk : List Nat) :
    box_open (box_seal m n pk sk) n pk sk = some m := by
  unfold box_seal
  rw [box_open_append _ _ _ _ _ (by simp [tagBytes])]
  rw [if_pos rfl, sxor_sxor]

theorem cast257_ne_of_byte_ne {a b : Nat} (ha : a < 256) (hb : b < 256)
    (h : a ≠ b) : (a : ZMod 257) ≠ (b : ZMod 257) := by
  haveI : NeZero (257 : Nat) := ⟨by norm_num⟩
  intro hc
  have := congrArg ZMod.val hc
  rw [ZMod.val_natCast, ZMod.val_natCast] at this
  omega

theorem zmod257_mul_cancel {x y : ZMod 257} (h : 256 * x = 256 * y) : x = y := by
  have h2 := congrArg (fun z => (256 : ZMod 257) * z) h
  simp only [← mul_assoc] at h2
  have h256 : (256 : ZMod 257) * 256 = 1 := by decide
  rwa [h256, one_mul, one_mul] at h2

theorem hashL_set_ne {e : List Nat} {j b' : Nat} (hj : j < e.length)
    (hne : (b' : ZMod 257) ≠ ((e.getD j 0 : Nat) : ZMod 257)) :
    hashL (e.set j b') ≠ hashL e := by
  induction e generalizing j with
  | nil => simp at hj
  | cons a rest ih =>
    cases j with
    | zero =>
      simp only [List.set, hashL, List.getD_cons_zero] at hne ⊢
      intro hc
      exact hne (by exact add_right_cancel hc)
    | succ j =>
      simp only [List.set, hashL, List.getD_cons_succ] at hne ⊢
      intro hc
      have h1 : (256 : ZMod 257) * hashL (rest.set j b') = 256 * hashL rest :=
        add_left_cancel hc
      exact ih (by simpa using hj) hne (zmod257_mul_cancel h1)

theorem tagNat_body_ne {k : Nat} {n e e' : List Nat}
    (hh : hashL e ≠ hashL e') : tagNat k n e ≠ tagNat k n e' := by
  haveI : NeZero (257 : Nat) := ⟨by norm_num⟩
  intro hc
  unfold tagNat at hc
  have hv : ((k : ZMod 257) + hashL e).val = ((k : ZMod 257) + hashL e').val := by
    have := Nat.eq_of_mul_eq_mul_left (show 0 < 256 ^ 24 by positivity)
      (by omega : 256 ^ 24 * ((k : ZMod 257) + hashL e).val
        = 256 ^ 24 * ((k : ZMod 257) + hashL e').val)
    exact this
  have := ZMod.val_injective _ hv
  exact hh (add_left_cancel this)

theorem tagNat_nonce_ne {k : Nat} {n n' e : List Nat}
    (hn : n.length = 24) (hn' : n'.length = 24)
    (hnv : ValidBytes n) (hn'v : ValidBytes n')
    (hne : n ≠ n') : tagNat k n e ≠ tagNat k n' e := by
  intro hc
  unfold tagNat at hc
  have : fromBytesLE n = fromBytesLE n' := by omega
  exact hne (fromBytesLE_inj (by omega) hnv hn'v this)

/-- Opening a sealed message under a different nonce fails. -/
theorem box_open_wrong_nonce {m n n' pk sk : List Nat}
    (hn : n.length = 24) (hn' : n'.length = 24)
    (hnv : ValidBytes n) (hn'v : ValidBytes n')
    (hne : n' ≠ n) : box_open (box_seal m n pk sk) n' pk sk = none := by
  unfold box_seal
  rw [box_open_append _ _ _ _ _ (by simp [tagBytes])]
  rw [if_neg]
  unfold tagBytes
  intro hc
  have := toBytesF_inj (tagNat_lt _ _ hn hnv) (tagNat_lt _ _ hn' hn'v) hc
  exact tagNat_nonce_ne hn hn' hnv hn'v (fun h => hne h.symm) this

/-- Tampering with any single byte of the ciphertext body makes opening
fail. -/
theorem box_open_set_body {m n pk sk : List Nat} {j b' : Nat}
    (hj : j < m.length) (hb' : b' < 256) (hmv : ValidBytes m)
    (hn : n.length = 24) (hnv : ValidBytes n)
    (hne : b' ≠ (box_seal m n pk sk).getD j 0) :
    box_open ((box_seal m n pk sk).set j b') n pk sk = none := by
  have hel : (sxor (sharedKey pk sk) (fromBytesLE n) 0 m).length = m.length :=
    sxor_length _ _ _ _
  have hset : (box_seal m n pk sk).set j b'
      = (sxor (sharedKey pk sk) (fromBytesLE n) 0 m).set j b'
        ++ tagBytes (sharedKey pk sk) n (sxor (sharedKey pk sk) (fromBytesLE n) 0 m) :=
    List.set_append_left _ _ (by omega)
  have hgd : (box_seal m n pk sk).getD j 0
      = (sxor (sharedKey pk sk) (fromBytesLE n) 0 m).getD j 0 :=
    List.getD_append _ _ _ _ (by omega)
  rw [hset, box_open_append _ _ _ _ _ (by simp [tagBytes]), if_neg]
  intro hc
  unfold tagBytes at hc
  have htag := toBytesF_inj (tagNat_lt _ _ hn hnv) (tagNat_lt _ _ hn hnv) hc
  apply absurd htag
  apply tagNat_body_ne
  have hev := sxor_valid (sharedKey pk sk) (fromBytesLE n) 0 hmv
  have hj' : j < (sxor (sharedKey pk sk) (fromBytesLE n) 0 m).length := by omega
  have hold : (sxor (sharedKey pk sk) (fromBytesLE n) 0 m).getD j 0 < 256 := by
    rw [List.getD_eq_getElem _ _ hj']
    exact hev _ (List.getElem_mem hj')
  have hcast := cast257_ne_of_byte_ne hb' hold (by rw [hgd] at hne; exact hne)
  exact fun h => (hashL_set_ne hj' hcast) h.symm

/-- Tampering with any single byte of the appended authenticator makes
opening fail. -/
theorem box_open_set_tag {m n pk sk : List Nat} {j b' : Nat}
    (hj : j < 26)
    (hne : b' ≠ (box_seal m n pk sk).getD (m.length + j) 0) :
    box_open ((box_seal m n pk sk).set (m.length + j) b') n pk sk = none := by
  have hel : (sxor (sharedKey pk sk) (fromBytesLE n) 0 m).length = m.length :=
    sxor_length _ _ _ _
  have hTl : (tagBytes (sharedKey pk sk) n
      (sxor (sharedKey pk sk) (fromBytesLE n) 0 m)).length = 26 := by
    simp [tagBytes]
  have hset : (box_seal m n pk sk).set (m.length + j) b'
      = sxor (sharedKey pk sk) (fromBytesLE n) 0 m
        ++ (tagBytes (sharedKey pk sk) n
            (sxor (sharedKey pk sk) (fromBytesLE n) 0 m)).set j b' := by
    have h := List.set_append_right
      (s := sxor (sharedKey pk sk) (fromBytesLE n) 0 m)
      (t := tagBytes (sharedKey pk sk) n (sxor (sharedKey pk sk) (fromBytesLE n) 0 m))
      (m.length + j) b' (by omega)
    rw [hel, Nat.add_sub_cancel_left] at h
    exact h
  have hgd : (box_seal m n pk sk).getD (m.length + j) 0
      = (tagBytes (sharedKey pk sk) n
          (sxor (sharedKey pk sk) (fromBytesLE n) 0 m)).getD j 0 := by
    have h := List.getD_append_right
      (sxor (sharedKey pk sk) (fromBytesLE n) 0 m)
      (tagBytes (sharedKey pk sk) n (sxor (sharedKey pk sk) (fromBytesLE n) 0 m))
      0 (m.length + j) (by omega)
    rw [hel, Nat.add_sub_cancel_left] at h
    exact h
  rw [hset, box_open_append _ _ _ _ _ (by simp [hTl]), if_neg]
  intro hc
  have hj'' : j < (tagBytes (sharedKey pk sk) n
      (sxor (sharedKey pk sk) (fromBytesLE n) 0 m)).length := by omega
  have hg := congrArg (fun l => l.getD j 0) hc
  simp only at hg
  rw [List.getD_eq_getElem _ _ (by simpa using hj''), List.getElem_set_self] at hg
  rw [hgd] at hne
  rw [List.getD_eq_getElem _ _ hj''] at hne hg
  exact hne hg

/-- Sealing the same plaintext under two different nonces yields two
different ciphertexts. -/
theorem box_seal_ne_of_nonce_ne {m n₁ n₂ pk sk : List Nat}
    (h1 : n₁.length = 24) (h2 : n₂.length = 24)
    (hv1 : ValidBytes n₁) (hv2 : ValidBytes n₂)
    (hne : n₁ ≠ n₂) : box_seal m n₁ pk sk ≠ box_seal m n₂ pk sk := by
  intro hc
  unfold box_seal at hc
  have hl : (sxor (sharedKey pk sk) (fromBytesLE n₁) 0 m).length
      = (sxor (sharedKey pk sk) (fromBytesLE n₂) 0 m).length := by simp
  obtain ⟨he, ht⟩ := List.append_inj hc hl
  have htag := toBytesF_inj (tagNat_lt _ _ h1 hv1) (tagNat_lt _ _ h2 hv2) ht
  rw [he] at htag
  exact tagNat_nonce_ne h1 h2 hv1 hv2 hne htag

/-! ## Envelope codec

The on-disk envelope is the `Cipher` struct of `src/lib.rs` serialized
with `bincode` (external crate): the 24 nonce bytes raw, then the
`Vec<u8>` ciphertext as an 8-byte little-endian length followed by the
bytes.  Deserialization accepts a matching prefix. -/

/-- The `Cipher` struct of the source: a nonce and the ciphertext. -/
structure Cipher where
  nonce : List Nat
  data : List Nat
deriving DecidableEq

/-- Modelled from the spec: `bincode::serialize` of a `Cipher`. -/
def serializeCipher (c : Cipher) : List Nat :=
  c.nonce ++ toBytesF 8 c.data.length ++ c.data

/-- Modelled from the spec: `bincode::deserialize` of a `Cipher`. -/
def deserializeCipher (bs : List Nat) : Option Cipher :=
  if bs.length < 32 then none
  else
    let n := bs.take 24
    let len := fromBytesLE ((bs.drop 24).take 8)
    let rest := bs.drop 32
    if len ≤ rest.length then some ⟨n, rest.take len⟩ else none

theorem deserializeCipher_serializeCipher {c : Cipher}
    (hn : c.nonce.length = 24) (hd : c.data.length < 256 ^ 8) :
    deserializeCipher (serializeCipher c) = some c := by
  unfold serializeCipher deserializeCipher
  have hassoc : c.nonce ++ toBytesF 8 c.data.length ++ c.data
      = (c.nonce ++ toBytesF 8 c.data.length) ++ c.data := by
    rw [List.append_assoc]
  have hlen : (c.nonce ++ toBytesF 8 c.data.length ++ c.data).length
      = 32 + c.data.length := by
    simp only [List.length_append, toBytesF_length, hn]
  rw [hlen] at *
  rw [if_neg (by omega)]
  have htake24 : (c.nonce ++ toBytesF 8 c.data.length ++ c.data).take 24 = c.nonce := by
    rw [List.append_assoc] at hassoc ⊢
    exact List.take_left' hn
  have hdrop24 : (c.nonce ++ toBytesF 8 c.data.length ++ c.data).drop 24
      = toBytesF 8 c.data.length ++ c.data := by
    rw [List.append_assoc]
    exact List.drop_left' hn
  have htake8 : (toBytesF 8 c.data.length ++ c.data).take 8 = toBytesF 8 c.data.length :=
    List.take_left' (by simp)
  have hdrop32 : (c.nonce ++ toBytesF 8 c.data.length ++ c.data).drop 32 = c.data := by
    rw [hassoc]
    exact List.drop_left' (by simp [hn])
  simp only [htake24, hdrop24, htake8, hdrop32]
  rw [fromBytesLE_toBytesF, Nat.mod_eq_of_lt hd]
  rw [if_pos (le_refl _), List.take_length]

/-! ## Base64

Modelled from the spec: the `data_encoding` crate's `BASE64` (standard
alphabet, `=` padding, canonical checking), used for the key files. -/

/-- The standard base64 alphabet. -/
def b64Alphabet : Str :=
  ['A', 'B', 'C', 'D', 'E', 'F', 'G', 'H', 'I', 'J', 'K', 'L', 'M',
   'N', 'O', 'P', 'Q', 'R', 'S', 'T', 'U', 'V', 'W', 'X', 'Y', 'Z',
   'a', 'b', 'c', 'd', 'e', 'f', 'g', 'h', 'i', 'j', 'k', 'l', 'm',
   'n', 'o', 'p', 'q', 'r', 's', 't', 'u', 'v', 'w', 'x', 'y', 'z',
   '0', '1', '2', '3', '4', '5', '6', '7', '8', '9', '+', '/']

/-- Character for a 6-bit group. -/
def b64char (v : Nat) : Char := b64Alphabet.getD v 'A'

/-- 6-bit group for a character, if it is in the alphabet. -/
def b64val (c : Char) : Option Nat := b64Alphabet.findIdx? (· == c)

/-- Base64 encoding of a byte list (standard alphabet with padding). -/
def base64Encode : List Nat → Str
  | b1 :: b2 :: b3 :: rest =>
      b64char (b1 / 4) :: b64char (b1 % 4 * 16 + b2 / 16)
        :: b64char (b2 % 16 * 4 + b3 / 64) :: b64char (b3 % 64)
        :: base64Encode rest
  | [b1, b2] =>
      [b64char (b1 / 4), b64char (b1 % 4 * 16 + b2 / 16), b64char (b2 % 16 * 4), '=']
  | [b1] => [b64char (b1 / 4), b64char (b1 % 4 * 16), '=', '=']
  | [] => []

/-- Base64 decoding (canonical: rejects bad characters, bad lengths and
nonzero trailing bits). -/
def base64Decode : Str → Option (List Nat)
  | [] => some []
  | c1 :: c2 :: c3 :: c4 :: rest =>
      match b64val c1, b64val c2 with
      | some v1, some v2 =>
        if c3 = '=' then
          if c4 = '=' ∧ rest = [] ∧ v2 % 16 = 0 then some [v1 * 4 + v2 / 16] else none
        else
          match b64val c3 with
          | some v3 =>
            if c4 = '=' then
              if rest = [] ∧ v3 % 4 = 0
              then some [v1 * 4 + v2 / 16, v2 % 16 * 16 + v3 / 4] else none
            else
              match b64val c4 with
              | some v4 =>
                match base64Decode rest with
                | some bs =>
                    some ((v1 * 4 + v2 / 16) :: (v2 % 16 * 16 + v3 / 4)
                      :: (v3 % 4 * 64 + v4) :: bs)
                | none => none
              | none => none
          | none => none
      | _, _ => none
  | _ => none

theorem b64val_b64char : ∀ v, v < 64 → b64val (b64char v) = some v := by decide

theorem b64char_ne_pad : ∀ v, v < 64 → b64char v ≠ '=' := by decide

theorem base64Decode_base64Encode :
    ∀ {l : List Nat}, ValidBytes l → base64Decode (base64Encode l) = some l
  | [], _ => rfl
  | [b1], h => by
    have hb1 : b1 < 256 := h b1 (by simp)
    unfold base64Encode base64Decode
    rw [b64val_b64char _ (by omega), b64val_b64char _ (by omega)]
    dsimp only
    rw [if_pos rfl, if_pos (by refine ⟨rfl, rfl, ?_⟩; omega)]
    simp only [Option.some.injEq, List.cons.injEq, and_true]
    omega
  | [b1, b2], h => by
    have hb1 : b1 < 256 := h b1 (by simp)
    have hb2 : b2 < 256 := h b2 (by simp)
    unfold base64Encode base64Decode
    rw [b64val_b64char _ (by omega), b64val_b64char _ (by omega)]
    dsimp only
    rw [if_neg (b64char_ne_pad _ (by omega))]
    rw [b64val_b64char _ (by omega)]
    dsimp only
    rw [if_pos rfl, if_pos (by refine ⟨rfl, ?_⟩; omega)]
    simp only [Option.some.injEq, List.cons.injEq, and_true]
    omega
  | b1 :: b2 :: b3 :: rest, h => by
    have hb1 : b1 < 256 := h b1 (by simp)
    have hb2 : b2 < 256 := h b2 (by simp)
    have hb3 : b3 < 256 := h b3 (by simp)
    have hrest : ValidBytes rest := fun x hx => h x (by simp [hx])
    unfold base64Encode base64Decode
    rw [b64val_b64char _ (by omega), b64val_b64char _ (by omega)]
    dsimp only
    rw [if_neg (b64char_ne_pad _ (by omega))]
    rw [b64val_b64char _ (by omega)]
    dsimp only
    rw [if_neg (b64char_ne_pad _ (by omega))]
    rw [b64val_b64char _ (by omega)]
    dsimp only
    rw [base64Decode_base64Encode hrest]
    dsimp only
    simp only [Option.some.injEq, List.cons.injEq, and_true]
    refine ⟨by omega, by omega, by omega⟩

/-! ## Path operations

Models of the `std::path::Path` methods the source uses: `file_name`
(final normal component, `None` for paths ending in `..` or without a
component), `file_stem` (file name cut at its last `.`, where a leading
`.` does not start an extension) and `parent` (path without its final
component). -/

/-- Split a path at every slash (keeping empty segments). -/
def splitSlash : Str → List Str
  | [] => [[]]
  | c :: rest =>
    if c = '/' then [] :: splitSlash rest
    else match splitSlash rest with
      | [] => [[c]]
      | s :: ss => (c :: s) :: ss

theorem splitSlash_ne_nil (s : Str) : splitSlash s ≠ [] := by
  cases s with
  | nil => simp [splitSlash]
  | cons c rest =>
    by_cases h : c = '/'
    · simp [splitSlash, h]
    · simp only [splitSlash, if_neg h]
      cases splitSlash rest <;> simp

theorem splitSlash_append (a b : Str) :
    splitSlash (a ++ '/' :: b) = splitSlash a ++ splitSlash b := by
  induction a with
  | nil => simp [splitSlash]
  | cons c rest ih =>
    by_cases h : c = '/'
    · simp [splitSlash, h, ih]
    · simp only [List.cons_append, splitSlash, if_neg h]
      have ih' : splitSlash (rest.append ('/' :: b)) = splitSlash rest ++ splitSlash b := ih
      rw [ih']
      cases hs : splitSlash rest with
      | nil => exact absurd hs (splitSlash_ne_nil rest)
      | cons s ss => simp

theorem splitSlash_no_slash {s : Str} (h : '/' ∉ s) : splitSlash s = [s] := by
  induction s with
  | nil => rfl
  | cons c rest ih =>
    have hc : c ≠ '/' := fun hc => h (by simp [hc])
    have hr : '/' ∉ rest := fun hr => h (by simp [hr])
    simp only [splitSlash, if_neg hc, ih hr]

theorem mem_splitSlash_no_slash {s x : Str} (hx : x ∈ splitSlash s) : '/' ∉ x := by
  induction s generalizing x with
  | nil =>
    simp only [splitSlash, List.mem_singleton] at hx
    simp [hx]
  | cons c rest ih =>
    by_cases h : c = '/'
    · simp only [splitSlash, if_pos h, List.mem_cons] at hx
      rcases hx with hx | hx
      · simp [hx]
      · exact ih hx
    · simp only [splitSlash, if_neg h] at hx
      cases hs : splitSlash rest with
      | nil => exact absurd hs (splitSlash_ne_nil rest)
      | cons s ss =>
        rw [hs] at hx
        simp only [List.mem_cons] at hx
        rcases hx with hx | hx
        · subst hx
          intro hmem
          simp only [List.mem_cons] at hmem
          rcases hmem with hmem | hmem
          · exact h hmem.symm
          · exact ih (by simp [hs, hmem]) hmem
        · exact ih (by simp [hs, hx])

/-- A path segment that `Path::components` keeps as a normal component
candidate (nonempty and not the current-directory dot). -/
def isNormalSeg (x : Str) : Bool := !(x == [] || x == ['.'])

/-- Model of `Path::file_name`: the last kept segment, unless the path
terminates in `..`. -/
def fileNameL (s : Str) : Option Str :=
  match ((splitSlash s).filter isNormalSeg).getLast? with
  | none => none
  | some l => if l = ['.', '.'] then none else some l

/-- Segment validity for the naming lemmas: nonempty, not `.`, not `..`,
slash-free. -/
def GoodSeg (n : Str) : Prop :=
  n ≠ [] ∧ n ≠ ['.'] ∧ n ≠ ['.', '.'] ∧ '/' ∉ n

instance : DecidablePred GoodSeg := fun g =>
  inferInstanceAs (Decidable (g ≠ [] ∧ g ≠ ['.'] ∧ g ≠ ['.', '.'] ∧ '/' ∉ g))

theorem fileNameL_concat {n : Str} (q : Str) (hn : GoodSeg n) :
    fileNameL (q ++ '/' :: n) = some n := by
  obtain ⟨h1, h2, h3, h4⟩ := hn
  unfold fileNameL
  rw [splitSlash_append, splitSlash_no_slash h4, List.filter_append]
  have hseg : isNormalSeg n = true := by
    simp only [isNormalSeg, Bool.not_eq_eq_eq_not, Bool.not_true, Bool.or_eq_false_iff,
      beq_eq_false_iff_ne, ne_eq]
    exact ⟨h1, h2⟩
  simp only [List.filter_cons, hseg, if_pos, List.filter_nil]
  rw [List.getLast?_concat]
  simp [h3]

theorem fileNameL_single {n : Str} (hn : GoodSeg n) : fileNameL n = some n := by
  obtain ⟨h1, h2, h3, h4⟩ := hn
  unfold fileNameL
  rw [splitSlash_no_slash h4]
  have hseg : isNormalSeg n = true := by
    simp only [isNormalSeg, Bool.not_eq_eq_eq_not, Bool.not_true, Bool.or_eq_false_iff,
      beq_eq_false_iff_ne, ne_eq]
    exact ⟨h1, h2⟩
  simp only [List.filter_cons, hseg, if_pos, List.filter_nil, List.getLast?_singleton]
  simp [h3]

theorem fileNameL_good {s n : Str} (h : fileNameL s = some n) : GoodSeg n := by
  unfold fileNameL at h
  cases hl : ((splitSlash s).filter isNormalSeg).getLast? with
  | none => rw [hl] at h; simp at h
  | some l =>
    rw [hl] at h
    dsimp only at h
    by_cases hdd : l = ['.', '.']
    · rw [if_pos hdd] at h; simp at h
    · rw [if_neg hdd] at h
      have hln : l = n := by simpa using h
      subst hln
      have hmem : l ∈ (splitSlash s).filter isNormalSeg :=
        List.mem_of_getLast?_eq_some hl
      have hseg := List.of_mem_filter hmem
      have hmem2 : l ∈ splitSlash s := List.mem_of_mem_filter hmem
      have hns : '/' ∉ l := mem_splitSlash_no_slash hmem2
      simp only [isNormalSeg, Bool.not_eq_eq_eq_not, Bool.not_true, Bool.or_eq_false_iff,
        beq_eq_false_iff_ne, ne_eq] at hseg
      exact ⟨hseg.1, hseg.2, hdd, hns⟩

/-- Prefix of a string before its last dot, if any dot occurs. -/
def takeBeforeLastDot : Str → Option Str
  | [] => none
  | c :: rest =>
    match takeBeforeLastDot rest with
    | some s => some (c :: s)
    | none => if c = '.' then some [] else none

/-- Model of `Path::file_stem` on a file name: the part before the last
dot, except that a dot in first position starts no extension. -/
def stemOf : Str → Str
  | [] => []
  | c :: rest =>
    match takeBeforeLastDot rest with
    | some s => c :: s
    | none => c :: rest

theorem takeBeforeLastDot_none {s : Str} (h : '.' ∉ s) : takeBeforeLastDot s = none := by
  induction s with
  | nil => rfl
  | cons c rest ih =>
    have hc : c ≠ '.' := fun hc => h (by simp [hc])
    have hr : '.' ∉ rest := fun hr => h (by simp [hr])
    simp only [takeBeforeLastDot, ih hr, if_neg hc]

theorem takeBeforeLastDot_append {ys : Str} (xs : Str) (h : '.' ∉ ys) :
    takeBeforeLastDot (xs ++ '.' :: ys) = some xs := by
  induction xs with
  | nil => simp [takeBeforeLastDot, takeBeforeLastDot_none h]
  | cons c rest ih =>
    have hshape : (c :: rest) ++ '.' :: ys = c :: (rest ++ '.' :: ys) := rfl
    rw [hshape, takeBeforeLastDot, ih]

/-- Stripping the `.cz` extension: the stem of `S.cz` is `S` for any
nonempty `S`. -/
theorem stemOf_append_cz {S : Str} (hS : S ≠ []) :
    stemOf (S ++ ['.', 'c', 'z']) = S := by
  cases S with
  | nil => exact absurd rfl hS
  | cons c rest =>
    simp only [List.cons_append, stemOf]
    rw [show rest ++ ['.', 'c', 'z'] = rest ++ '.' :: ['c', 'z'] from rfl]
    rw [takeBeforeLastDot_append rest (by decide)]

/-- Model of `Path::parent`: the path with its final component removed
(`none` for the empty and root paths). -/
def parentDir (s : Str) : Option Str :=
  if s = [] ∨ s = ['/'] then none
  else match s.reverse.dropWhile (fun c => !(c == '/')) with
    | [] => some []
    | _ :: rr => some rr.reverse

theorem dropWhile_append_all {p : Char → Bool} {xs : Str} (ys : Str)
    (h : ∀ x ∈ xs, p x = true) :
    (xs ++ ys).dropWhile p = ys.dropWhile p := by
  induction xs with
  | nil => rfl
  | cons c rest ih =>
    simp only [List.cons_append, List.dropWhile_cons, h c (by simp), if_pos]
    exact ih (fun x hx => h x (by simp [hx]))

theorem parentDir_concat {n : Str} (q : Str) (hn : n ≠ []) (hns : '/' ∉ n) :
    parentDir (q ++ '/' :: n) = some q := by
  unfold parentDir
  rw [if_neg]
  · have hrev : (q ++ '/' :: n).reverse = n.reverse ++ '/' :: q.reverse := by
      simp
    rw [hrev, dropWhile_append_all _ (fun x hx => by
      have : x ≠ '/' := fun hc => hns (by
        subst hc
        exact List.mem_reverse.mp hx)
      simp [this])]
    simp only [List.dropWhile_cons]
    norm_num
  · intro hc
    rcases hc with hc | hc
    · exact absurd hc (by simp)
    · have hlen := congrArg List.length hc
      simp only [List.length_append, List.length_cons, List.length_nil] at hlen
      have hn0 : n.length = 0 := by omega
      exact hn (List.eq_nil_of_length_eq_zero hn0)

/-! ## Errors

The `AnyError` struct of `src/lib.rs`: a detail string plus an optional
wrapped cause.  Foreign error values (std::io, serde) whose contents the
program never inspects are represented by fixed placeholders. -/

/-- The `AnyError` type of the source: `details` plus an optional
wrapped parent (`leaf` is `parent: None`, `wrap` is `parent: Some`). -/
inductive AnyError where
  | leaf (details : String)
  | wrap (details : String) (parent : AnyError)
deriving DecidableEq

/-- The source's `AnyError::without_parent` / `error_without_parent`. -/
def errNP (s : String) : AnyError := .leaf s

/-- The source's `error(message, reason)`: wrap a cause. -/
def wrapE (s : String) (e : AnyError) : AnyError := .wrap s e

/-- Placeholder for a foreign I/O error value. -/
def ioErr : AnyError := errNP "io error"

/-- Placeholder for a foreign parse/deserialize error value. -/
def parseErr : AnyError := errNP "parse error"

/-- A Rust `panic!` (`Option::unwrap` on `None`), modelled as an error
value so the embedding stays total. -/
def panicErr : AnyError := errNP "panicked"

/-! ## File system state and ambient environment -/

/-- Contents of one file: raw bytes or text (profile and key files are
written as text, plain and encrypted payloads as bytes). -/
inductive FileData where
  | bytes (b : List Nat)
  | text (t : Str)
deriving DecidableEq

/-- Explicit file-system state: newest-first association list of files
plus the list of existing directories. -/
structure FS where
  files : List (Str × FileData)
  dirs : List Str
deriving DecidableEq

/-- Read a file (`None` when absent). -/
def readF (fs : FS) (p : Str) : Option FileData := fs.files.lookup p

/-- Create/overwrite a file (`File::create` + `write_all`). -/
def writeF (fs : FS) (p : Str) (d : FileData) : FS :=
  { fs with files := (p, d) :: fs.files }

/-- Create a directory (`fs::create_dir_all`). -/
def mkdirF (fs : FS) (p : Str) : FS := { fs with dirs := p :: fs.dirs }

/-- Model of `Path::is_file`. -/
def isFileF (fs : FS) (p : Str) : Bool := (readF fs p).isSome

/-- Model of `Path::is_dir`. -/
def isDirF (fs : FS) (p : Str) : Bool := fs.dirs.contains p

/-- Model of `Path::exists`. -/
def existsF (fs : FS) (p : Str) : Bool := isFileF fs p || isDirF fs p

/-- A curve25519 key pair; `box_::gen_keypair` output, 32 bytes each. -/
structure KeyPair where
  pk : List Nat
  sk : List Nat
deriving DecidableEq

/-- Ambient I/O facts consulted by the program: home directory, path
canonicalisation, which creations fail (permissions, disk), and the
random values produced during one run. -/
structure IOEnv where
  homeDir : Option Str
  canonicalize : Str → Except AnyError Str
  createDirErr : Str → Option AnyError
  createFileErr : Str → Option AnyError
  genKeypair : KeyPair
  genNonce : List Nat

/-- Raw bytes of a file as read by `fs::read` (text files yield their
character scalar values; the verified flows only read byte files raw). -/
def fdBytes : FileData → List Nat
  | .bytes b => b
  | .text t => t.map Char.toNat

/-! ## The program — embedded from `src/lib.rs` -/

/-- The `Profile` struct: a name and a storage directory. -/
structure Profile where
  name : Str
  storage : Str
deriving DecidableEq

/-- The `Key` enum. -/
inductive Key where
  | publicKey
  | secretKey
deriving DecidableEq

/-- The `Display` impl for `Key` (`"pk"` / `"sk"`). -/
def keyExt : Key → Str
  | .publicKey => ['p', 'k']
  | .secretKey => ['s', 'k']

/-- `get_profile_file_name` (lib.rs:259): the per-user profile record
path `<home>/.moy-sekret.<name>.toml`. -/
def getProfileFileName (env : IOEnv) (profileName : Str) : Str :=
  match env.homeDir with
  | some path => path ++ "/.moy-sekret.".toList ++ profileName ++ ".toml".toList
  | none => ".moy-sekret.".toList ++ profileName ++ ".toml".toList

/-- `profile_file_exists` (lib.rs:266): the record file is present. -/
def profile_file_exists (env : IOEnv) (fs : FS) (profileName : Str) : Bool :=
  isFileF fs (getProfileFileName env profileName)

/-- `profile_exists` (lib.rs:208). -/
def profile_exists (env : IOEnv) (fs : FS) (profileName : Str) : Bool :=
  profile_file_exists env fs profileName

/-- `toml::to_string` of a `Profile` (external crate; fixed layout for
this two-field struct). -/
def profileToml (p : Profile) : Str :=
  "name = \"".toList ++ p.name ++ "\"\nstorage = \"".toList ++ p.storage ++ "\"\n".toList

/-- Strip an expected literal prefix. -/
def stripPfx : Str → Str → Option Str
  | [], s => some s
  | _ :: _, [] => none
  | p :: ps, c :: cs => if p = c then stripPfx ps cs else none

/-- Modelled from the spec: `toml::from_str` for a `Profile` record
(external crate) — accepts exactly the layout written by
`profileToml`. -/
def parseProfile (s : Str) : Option Profile :=
  match stripPfx "name = \"".toList s with
  | none => none
  | some r1 =>
    let nm := r1.takeWhile (fun c => !(c == '"'))
    let r2 := r1.dropWhile (fun c => !(c == '"'))
    match stripPfx "\"\nstorage = \"".toList r2 with
    | none => none
    | some r3 =>
      let st := r3.takeWhile (fun c => !(c == '"'))
      let r4 := r3.dropWhile (fun c => !(c == '"'))
      if r4 = ['"', '\n'] then some ⟨nm, st⟩ else none

/-- `read_profile` (lib.rs:212). -/
def read_profile (env : IOEnv) (fs : FS) (profileName : Str) :
    Except AnyError Profile :=
  match readF fs (getProfileFileName env profileName) with
  | some (.text content) =>
    match parseProfile content with
    | some p => .ok p
    | none => .error (wrapE "Could not parse profile file" parseErr)
  | some (.bytes _) => .error (wrapE "Could not read profile" ioErr)
  | none => .error (wrapE "Could not read profile" ioErr)

/-- `save_profile` (lib.rs:241). -/
def save_profile (env : IOEnv) (fs : FS) (profile : Profile)
    (outputFilePath : Str) : Except AnyError FS :=
  match env.createFileErr outputFilePath with
  | some e => .error (wrapE "Could not create profile file" e)
  | none => .ok (writeF fs outputFilePath (.text (profileToml profile)))

/-- `create_profile` (lib.rs:226). -/
def create_profile (env : IOEnv) (fs : FS) (profileName storageDir : Str) :
    Except AnyError (Profile × FS) :=
  let profile : Profile := ⟨profileName, storageDir⟩
  match save_profile env fs profile (getProfileFileName env profileName) with
  | .error e => .error (wrapE "Could not save profile" e)
  | .ok fs1 => .ok (profile, fs1)

/-- `storage_dir_exists` (lib.rs:274). -/
def storage_dir_exists (fs : FS) (storageDir : Str) : Bool := isDirF fs storageDir

/-- `create_storage_dir` (lib.rs:279). -/
def create_storage_dir (env : IOEnv) (fs : FS) (storageDir : Str) :
    Except AnyError FS :=
  if storage_dir_exists fs storageDir then .ok fs
  else match env.createDirErr storageDir with
    | some e => .error (wrapE "Could not create storage directory" e)
    | none => .ok (mkdirF fs storageDir)

/-- `expand_storage_dir` (lib.rs:291): canonicalize to absolute. -/
def expand_storage_dir (env : IOEnv) (storageDir : Str) : Except AnyError Str :=
  match env.canonicalize storageDir with
  | .ok abs => .ok abs
  | .error e => .error (wrapE "Could not expand storage directory" e)

/-- `get_key_file_name` (lib.rs:382): `<storage>/<name>.<pk|sk>`. -/
def get_key_file_name (profile : Profile) (key : Key) : Str :=
  profile.storage ++ '/' :: (profile.name ++ '.' :: keyExt key)

/-- `key_file_exists` (lib.rs:386). -/
def key_file_exists (fs : FS) (profile : Profile) (key : Key) : Bool :=
  isFileF fs (get_key_file_name profile key)

/-- `keypair_exists` (lib.rs:304): both key files must be present. -/
def keypair_exists (fs : FS) (profile : Profile) : Bool :=
  if !key_file_exists fs profile .publicKey then false
  else if !key_file_exists fs profile .secretKey then false
  else true

/-- `read_key` (lib.rs:335): read the text file and base64-decode. -/
def read_key (fs : FS) (inputFilePath : Str) : Except AnyError (List Nat) :=
  match readF fs inputFilePath with
  | some (.text raw) =>
    match base64Decode raw with
    | some v => .ok v
    | none => .error (wrapE "Could not decode key file" parseErr)
  | some (.bytes _) => .error (wrapE "Could not read key file" ioErr)
  | none => .error (wrapE "Could not read key file" ioErr)

/-- `read_keypair` (lib.rs:314); the 32-byte length checks are
`PublicKey::from_slice` / `SecretKey::from_slice`, and the second read
failure reuses the message "Could not read public key" exactly as the
source does (lib.rs:330). -/
def read_keypair (fs : FS) (profile : Profile) :
    Except AnyError (List Nat × List Nat) :=
  match read_key fs (get_key_file_name profile .publicKey) with
  | .error e => .error (wrapE "Could not read public key" e)
  | .ok rawPk =>
    if rawPk.length = 32 then
      match read_key fs (get_key_file_name profile .secretKey) with
      | .error e => .error (wrapE "Could not read public key" e)
      | .ok rawSk =>
        if rawSk.length = 32 then .ok (rawPk, rawSk)
        else .error (errNP "Could not decode secret key")
    else .error (errNP "Could not decode public key")

/-- `save_key` (lib.rs:364): write the base64 text. -/
def save_key (env : IOEnv) (fs : FS) (key : List Nat) (outputFilePath : Str) :
    Except AnyError FS :=
  match env.createFileErr outputFilePath with
  | some e => .error (wrapE "Could not create key file" e)
  | none => .ok (writeF fs outputFilePath (.text (base64Encode key)))

/-- `create_keypair` (lib.rs:346): generate and save both halves. -/
def create_keypair (env : IOEnv) (fs : FS) (profile : Profile) :
    Except AnyError (KeyPair × FS) :=
  let kp := env.genKeypair
  match save_key env fs kp.pk (get_key_file_name profile .publicKey) with
  | .error e => .error (wrapE "Could not save public key file" e)
  | .ok fs1 =>
    match save_key env fs1 kp.sk (get_key_file_name profile .secretKey) with
    | .error e => .error (wrapE "Could not save secret key file" e)
    | .ok fs2 => .ok (kp, fs2)

/-- `get_encrypted_file_name` (lib.rs:443):
`<storage>/<file_name>.cz`; `None` models the `unwrap` panic. -/
def get_encrypted_file_name (profile : Profile) (fileName : Str) : Option Str :=
  (fileNameL fileName).map (fun nm => profile.storage ++ '/' :: (nm ++ ['.', 'c', 'z']))

/-- `save_encrypted_file` (lib.rs:422). -/
def save_encrypted_file (env : IOEnv) (fs : FS) (cipher : Cipher)
    (outputFilePath : Str) : Except AnyError FS :=
  match env.createFileErr outputFilePath with
  | some e => .error (wrapE "Could not create encrypted file" e)
  | none => .ok (writeF fs outputFilePath (.bytes (serializeCipher cipher)))

/-- `encrypt_file` (lib.rs:394). -/
def encrypt_file (env : IOEnv) (fs : FS) (profile : Profile) (filePath : Str) :
    Except AnyError Unit × FS :=
  match read_keypair fs profile with
  | .error e => (.error (wrapE "Could not encrypt file" e), fs)
  | .ok (pk, sk) =>
    match readF fs filePath with
    | none => (.error (wrapE "Could not read file to encrypt" ioErr), fs)
    | some fd =>
      let nonce := env.genNonce
      let cipherData := box_seal (fdBytes fd) nonce pk sk
      match get_encrypted_file_name profile filePath with
      | none => (.error panicErr, fs)
      | some cipherFilePath =>
        match save_encrypted_file env fs ⟨nonce, cipherData⟩ cipherFilePath with
        | .error e => (.error (wrapE "Could not save encrypted file" e), fs)
        | .ok fs1 => (.ok (), fs1)

/-- `get_decrypted_file_name` (lib.rs:501):
`<dest>/<file_stem>`; `None` models the `unwrap` panic. -/
def get_decrypted_file_name (fileName destDir : Str) : Option Str :=
  (fileNameL fileName).map (fun nm => destDir ++ '/' :: stemOf nm)

/-- `create_dir_if_not_exists` (lib.rs:529). -/
def create_dir_if_not_exists (env : IOEnv) (fs : FS) (givenDir : Str) :
    Except AnyError FS :=
  if existsF fs givenDir then .ok fs
  else match env.createDirErr givenDir with
    | some e => .error (wrapE "Could not create directory" e)
    | none => .ok (mkdirF fs givenDir)

/-- `save_decrypted_file` (lib.rs:483). -/
def save_decrypted_file (env : IOEnv) (fs : FS) (plainData : List Nat)
    (outputFilePath : Str) : Except AnyError FS :=
  match parentDir outputFilePath with
  | none => .error panicErr
  | some parent =>
    match create_dir_if_not_exists env fs parent with
    | .error e => .error e
    | .ok fs1 =>
      match env.createFileErr outputFilePath with
      | some e => .error (wrapE "Could not create plain file" e)
      | none => .ok (writeF fs1 outputFilePath (.bytes plainData))

/-- `decrypt_file` (lib.rs:453); its key-pair failure message says
"encrypt" exactly as the source does (lib.rs:456). -/
def decrypt_file (env : IOEnv) (fs : FS) (profile : Profile)
    (filePath destDir : Str) : Except AnyError Unit × FS :=
  match read_keypair fs profile with
  | .error e => (.error (wrapE "Could not encrypt file" e), fs)
  | .ok (pk, sk) =>
    match readF fs filePath with
    | none => (.error (wrapE "Could not read file to decrypt" ioErr), fs)
    | some fd =>
      match deserializeCipher (fdBytes fd) with
      | none => (.error (wrapE "Could not deserialize encrypted data" parseErr), fs)
      | some cipher =>
        match box_open cipher.data cipher.nonce pk sk with
        | none => (.error (errNP "Could not decrypt file"), fs)
        | some plainData =>
          match get_decrypted_file_name filePath destDir with
          | none => (.error panicErr, fs)
          | some plainFilePath =>
            match save_decrypted_file env fs plainData plainFilePath with
            | .error e => (.error (wrapE "Could not save decrypted file" e), fs)
            | .ok fs1 => (.ok (), fs1)

/-- `file_exists` (lib.rs:524). -/
def file_exists (fs : FS) (filePath : Str) : Bool := isFileF fs filePath

/-- The envelope extension `".cz"`. -/
def czExt : Str := ['.', 'c', 'z']

/-- Rust `str::ends_with(".cz")`. -/
def endsWithCz (s : Str) : Bool := czExt.isSuffixOf s

/-- `init` (lib.rs:96). -/
def init (env : IOEnv) (fs : FS) (profileName storageDir : Str)
    (shouldOverride : Bool) : Except AnyError Unit × FS :=
  if !shouldOverride && profile_exists env fs profileName then
    (.error (errNP "Initialization failed because profile already exists"), fs)
  else
    match create_storage_dir env fs storageDir with
    | .error e =>
      (.error (wrapE "Initialization failed while creating storage for files" e), fs)
    | .ok fs1 =>
      match expand_storage_dir env storageDir with
      | .error e => (.error e, fs1)
      | .ok absStorageDir =>
        match create_profile env fs1 profileName absStorageDir with
        | .error e =>
          (.error (wrapE "Initialization failed while creating profile" e), fs1)
        | .ok (profile, fs2) =>
          match create_keypair env fs2 profile with
          | .error e =>
            (.error (wrapE "Initialization failed while creating key pair" e), fs2)
          | .ok (_, fs3) => (.ok (), fs3)

/-- `encrypt` (lib.rs:132). -/
def encrypt (env : IOEnv) (fs : FS) (profileName filePath : Str)
    (shouldOverride : Bool) : Except AnyError Unit × FS :=
  if endsWithCz filePath then
    (.error (errNP "Encryption failed because source file was already encrypted by this program (.cz)"), fs)
  else if !file_exists fs filePath then
    (.error (errNP "Encryption failed because source file does not exists"), fs)
  else
    match read_profile env fs profileName with
    | .error e => (.error (wrapE "Encryption failed while reading user profile" e), fs)
    | .ok profile =>
      match get_encrypted_file_name profile filePath with
      | none => (.error panicErr, fs)
      | some encryptedFilePath =>
        if !shouldOverride && file_exists fs encryptedFilePath then
          (.error (errNP "Encryption failed because target file already exists"), fs)
        else
          match encrypt_file env fs profile filePath with
          | (.error e, fs1) =>
            (.error (wrapE "Encryption failed while doing actual encryption" e), fs1)
          | (.ok _, fs1) => (.ok (), fs1)

/-- `decrypt` (lib.rs:167). -/
def decrypt (env : IOEnv) (fs : FS) (profileName filePath destDir : Str)
    (shouldOverride : Bool) : Except AnyError Unit × FS :=
  if !endsWithCz filePath then
    (.error (errNP "Decryption failed because source file was not made by this program (.cz)"), fs)
  else if !file_exists fs filePath then
    (.error (errNP "Decryption failed because source file does not exists"), fs)
  else
    match get_decrypted_file_name filePath destDir with
    | none => (.error panicErr, fs)
    | some decryptedFilePath =>
      if !shouldOverride && file_exists fs decryptedFilePath then
        (.error (errNP "Decryption failed because target file already exists"), fs)
      else
        match read_profile env fs profileName with
        | .error e => (.error (wrapE "Decryption failed while reading user profile" e), fs)
        | .ok profile =>
          match decrypt_file env fs profile filePath destDir with
          | (.error e, fs1) =>
            (.error (wrapE "Decryption failed while doing actual decryption" e), fs1)
          | (.ok _, fs1) => (.ok (), fs1)

deriving instance DecidableEq for Except

/-- Test fixture: an environment whose I/O always succeeds, whose
canonicalisation is the identity and whose randomness is all zero. -/
def okEnv : IOEnv where
  homeDir := none
  canonicalize := fun d => .ok d
  createDirErr := fun _ => none
  createFileErr := fun _ => none
  genKeypair := ⟨List.replicate 32 0, List.replicate 32 0⟩
  genNonce := List.replicate 24 0

/-! ## File-system helper lemmas -/

@[simp] theorem readF_writeF (fs : FS) (p q : Str) (d : FileData) :
    readF (writeF fs p d) q = if q = p then some d else readF fs q := by
  simp only [readF, writeF, List.lookup_cons]
  by_cases h : q = p
  · simp [h]
  · simp [beq_eq_false_iff_ne.mpr h, h]

@[simp] theorem readF_mkdirF (fs : FS) (p q : Str) :
    readF (mkdirF fs p) q = readF fs q := rfl

@[simp] theorem dirs_writeF (fs : FS) (p : Str) (d : FileData) :
    (writeF fs p d).dirs = fs.dirs := rfl

@[simp] theorem dirs_mkdirF (fs : FS) (p : Str) :
    (mkdirF fs p).dirs = p :: fs.dirs := rfl

theorem isFileF_iff (fs : FS) (p : Str) :
    isFileF fs p = true ↔ ∃ d, readF fs p = some d := by
  simp [isFileF, Option.isSome_iff_exists]

/-! ## Claim theorems -/

/-- C7: the key-pair existence check returns true iff BOTH the
public-key file `storage_dir/<name>.pk` and the secret-key file
`storage_dir/<name>.sk` are present; with exactly one of the two
present it returns false. -/
theorem keypair_exists_both_files (fs : FS) (pr : Profile) :
    (keypair_exists fs pr = true ↔
      isFileF fs (pr.storage ++ '/' :: (pr.name ++ ['.', 'p', 'k'])) = true
      ∧ isFileF fs (pr.storage ++ '/' :: (pr.name ++ ['.', 's', 'k'])) = true)
    ∧ (isFileF fs (pr.storage ++ '/' :: (pr.name ++ ['.', 'p', 'k'])) = true
        ∧ isFileF fs (pr.storage ++ '/' :: (pr.name ++ ['.', 's', 'k'])) = false
        → keypair_exists fs pr = false)
    ∧ (isFileF fs (pr.storage ++ '/' :: (pr.name ++ ['.', 'p', 'k'])) = false
        ∧ isFileF fs (pr.storage ++ '/' :: (pr.name ++ ['.', 's', 'k'])) = true
        → keypair_exists fs pr = false) := by
  unfold keypair_exists key_file_exists get_key_file_name keyExt
  cases hpk : isFileF fs (pr.storage ++ '/' :: (pr.name ++ ['.', 'p', 'k']))
    <;> cases hsk : isFileF fs (pr.storage ++ '/' :: (pr.name ++ ['.', 's', 'k']))
    <;> simp_all

/-- C7 witness: a store holding only the public-key file is reported as
having no key pair. -/
theorem keypair_exists_both_files_witness :
    keypair_exists
      ⟨[(['s', 't', '/', 'p', '.', 'p', 'k'], .text [])], []⟩
      ⟨['p'], ['s', 't']⟩ = false :=
  (keypair_exists_both_files
      ⟨[(['s', 't', '/', 'p', '.', 'p', 'k'], .text [])], []⟩
      ⟨['p'], ['s', 't']⟩).2.1 (by decide)

/-- C6 (amended): the profile existence check is presence of the record
file at the well-known per-user path — parsability plays no part. -/
theorem profile_exists_presence_only (env : IOEnv) (fs : FS) (name : Str) :
    profile_exists env fs name = true
      ↔ ∃ d, readF fs (match env.homeDir with
          | some h => h ++ "/.moy-sekret.".toList ++ name ++ ".toml".toList
          | none => ".moy-sekret.".toList ++ name ++ ".toml".toList) = some d := by
  unfold profile_exists profile_file_exists getProfileFileName
  cases env.homeDir <;> exact isFileF_iff _ _

/-- C6 counterexample: a present but unparsable profile record still
counts as existing (`profile_exists` is true while `read_profile` fails
to parse), refuting the claim's "and parses" condition. -/
theorem profile_exists_unparsable_counterexample :
    profile_exists okEnv
      ⟨[(".moy-sekret.p.toml".toList, .text "garbage".toList)], []⟩ ['p'] = true
    ∧ read_profile okEnv
      ⟨[(".moy-sekret.p.toml".toList, .text "garbage".toList)], []⟩ ['p']
      = .error (wrapE "Could not parse profile file" parseErr) := by
  constructor
  · decide
  · rfl

/-- C3: encrypting a path whose final component is `N` targets
`<storage>/N.cz` (directories dropped, extension appended), and
decrypting a path whose final component is `S.cz` into `X` targets
`X/S` (only the final extension stripped). -/
theorem naming_transform (pr : Profile) (q dest N S : Str) :
    (GoodSeg N →
      fileNameL (q ++ '/' :: N) = some N
      ∧ get_encrypted_file_name pr (q ++ '/' :: N)
          = some (pr.storage ++ '/' :: (N ++ ['.', 'c', 'z'])))
    ∧ (S ≠ [] → '/' ∉ S →
      get_decrypted_file_name (q ++ '/' :: (S ++ ['.', 'c', 'z'])) dest
        = some (dest ++ '/' :: S)) := by
  constructor
  · intro hN
    refine ⟨fileNameL_concat q hN, ?_⟩
    unfold get_encrypted_file_name
    rw [fileNameL_concat q hN]
    rfl
  · intro hS hSl
    have hgood : GoodSeg (S ++ ['.', 'c', 'z']) := by
      refine ⟨by simp, ?_, ?_, ?_⟩
      · intro h
        have := congrArg List.length h
        simp at this
      · intro h
        have := congrArg List.length h
        simp at this
      · intro h
        rcases List.mem_append.mp h with h | h
        · exact hSl h
        · simp at h
    unfold get_decrypted_file_name
    rw [fileNameL_concat q hgood]
    simp only [Option.map_some']
    rw [stemOf_append_cz hS]

/-- C3 witness: `foo/bar.txt` encrypts to `st/bar.txt.cz`, and
`foo/bar.tar.gz.cz` decrypts into `out` as `out/bar.tar.gz`. -/
theorem naming_transform_witness :
    get_encrypted_file_name ⟨['p'], "st".toList⟩ "foo/bar.txt".toList
      = some "st/bar.txt.cz".toList
    ∧ get_decrypted_file_name "foo/bar.tar.gz.cz".toList "out".toList
      = some "out/bar.tar.gz".toList := by
  have h := naming_transform ⟨['p'], "st".toList⟩ "foo".toList "out".toList
    "bar.txt".toList "bar.tar.gz".toList
  exact ⟨(h.1 (by decide)).2, h.2 (by decide) (by decide)⟩

/-- Helper: full characterisation of `init` with `override = true` when
every I/O step succeeds — the storage directory is ensured and the
profile record, public key and secret key files are written. -/
theorem init_true_eq (env : IOEnv) (fs : FS) (name dir abs : Str)
    (h1 : env.createDirErr dir = none)
    (h2 : env.canonicalize dir = .ok abs)
    (h3 : env.createFileErr (getProfileFileName env name) = none)
    (h4 : env.createFileErr (abs ++ '/' :: (name ++ ['.', 'p', 'k'])) = none)
    (h5 : env.createFileErr (abs ++ '/' :: (name ++ ['.', 's', 'k'])) = none) :
    init env fs name dir true
      = (.ok (), writeF (writeF (writeF
          (if storage_dir_exists fs dir then fs else mkdirF fs dir)
          (getProfileFileName env name) (.text (profileToml ⟨name, abs⟩)))
          (abs ++ '/' :: (name ++ ['.', 'p', 'k']))
          (.text (base64Encode env.genKeypair.pk)))
          (abs ++ '/' :: (name ++ ['.', 's', 'k']))
          (.text (base64Encode env.genKeypair.sk))) := by
  by_cases hd : storage_dir_exists fs dir
  · simp [init, create_storage_dir, hd, expand_storage_dir, h2,
      create_profile, save_profile, h3, create_keypair, save_key,
      get_key_file_name, keyExt, h4, h5]
  · simp [init, create_storage_dir, hd, h1, expand_storage_dir, h2,
      create_profile, save_profile, h3, create_keypair, save_key,
      get_key_file_name, keyExt, h4, h5]

/-- C4: with `override = false`, `init` on an existing profile fails at
once with the already-exists error and leaves the state untouched; with
`override = true` the existence of the profile is no obstacle and `init`
replaces the profile record and both key files (given I/O success). -/
theorem init_override_gating (env : IOEnv) (fs : FS) (name dir abs : Str) :
    (profile_exists env fs name = true →
      init env fs name dir false
        = (.error (errNP "Initialization failed because profile already exists"), fs))
    ∧ (env.createDirErr dir = none →
       env.canonicalize dir = .ok abs →
       env.createFileErr (getProfileFileName env name) = none →
       env.createFileErr (abs ++ '/' :: (name ++ ['.', 'p', 'k'])) = none →
       env.createFileErr (abs ++ '/' :: (name ++ ['.', 's', 'k'])) = none →
       init env fs name dir true
         = (.ok (), writeF (writeF (writeF
             (if storage_dir_exists fs dir then fs else mkdirF fs dir)
             (getProfileFileName env name) (.text (profileToml ⟨name, abs⟩)))
             (abs ++ '/' :: (name ++ ['.', 'p', 'k']))
             (.text (base64Encode env.genKeypair.pk)))
             (abs ++ '/' :: (name ++ ['.', 's', 'k']))
             (.text (base64Encode env.genKeypair.sk)))) := by
  constructor
  · intro h
    unfold init
    rw [if_pos (by simp [h])]
  · intro h1 h2 h3 h4 h5
    exact init_true_eq env fs name dir abs h1 h2 h3 h4 h5

/-- C4 witness: on a state whose profile record exists, `init` without
override fails with the already-exists error, and with override it
rewrites the profile and key files. -/
theorem init_override_gating_witness :
    init okEnv ⟨[(".moy-sekret.p.toml".toList, .text [])], []⟩ ['p'] "d".toList false
      = (.error (errNP "Initialization failed because profile already exists"),
         ⟨[(".moy-sekret.p.toml".toList, .text [])], []⟩)
    ∧ init okEnv ⟨[(".moy-sekret.p.toml".toList, .text [])], []⟩ ['p'] "d".toList true
      = (.ok (), writeF (writeF (writeF
          (mkdirF ⟨[(".moy-sekret.p.toml".toList, .text [])], []⟩ "d".toList)
          ".moy-sekret.p.toml".toList
          (.text (profileToml ⟨['p'], "d".toList⟩)))
          "d/p.pk".toList (.text (base64Encode (List.replicate 32 0))))
          "d/p.sk".toList (.text (base64Encode (List.replicate 32 0)))) := by
  have h := init_override_gating okEnv
    ⟨[(".moy-sekret.p.toml".toList, .text [])], []⟩ ['p'] "d".toList "d".toList
  refine ⟨h.1 (by decide), ?_⟩
  have h2 := h.2 (by decide) (by decide) (by decide) (by decide) (by decide)
  rw [h2]
  rfl

/-- Helper: with `override = true`, `init` never consults the file map
(only directories and the environment drive its control flow), so two
states agreeing outside the profile-record path produce the same result
and stay in agreement. -/
theorem init_true_frame (env : IOEnv) (fs₁ fs₂ : FS) (name dir : Str)
    (hfiles : ∀ q, q ≠ getProfileFileName env name → readF fs₁ q = readF fs₂ q)
    (hdirs : fs₁.dirs = fs₂.dirs) :
    (init env fs₁ name dir true).1 = (init env fs₂ name dir true).1
    ∧ ∀ q, q ≠ getProfileFileName env name →
        readF (init env fs₁ name dir true).2 q
          = readF (init env fs₂ name dir true).2 q := by
  have hsd : storage_dir_exists fs₁ dir = storage_dir_exists fs₂ dir := by
    simp [storage_dir_exists, isDirF, hdirs]
  by_cases hd : storage_dir_exists fs₂ dir
  · have hd1 : storage_dir_exists fs₁ dir := by rw [hsd]; exact hd
    cases hcan : env.canonicalize dir with
    | error e =>
      refine ⟨?_, fun q hq => ?_⟩
      · simp [init, create_storage_dir, hd, hd1, expand_storage_dir, hcan]
      · simp [init, create_storage_dir, hd, hd1, expand_storage_dir, hcan,
          hfiles q hq]
    | ok abs =>
      cases hpf : env.createFileErr (getProfileFileName env name) with
      | some e =>
        refine ⟨?_, fun q hq => ?_⟩
        · simp [init, create_storage_dir, hd, hd1, expand_storage_dir, hcan,
            create_profile, save_profile, hpf]
        · simp [init, create_storage_dir, hd, hd1, expand_storage_dir, hcan,
            create_profile, save_profile, hpf, hfiles q hq]
      | none =>
        cases hpk : env.createFileErr (get_key_file_name ⟨name, abs⟩ .publicKey) with
        | some e =>
          refine ⟨?_, fun q hq => ?_⟩
          · simp [init, create_storage_dir, hd, hd1, expand_storage_dir, hcan,
              create_profile, save_profile, hpf, create_keypair, save_key, hpk]
          · simp [init, create_storage_dir, hd, hd1, expand_storage_dir, hcan,
              create_profile, save_profile, hpf, create_keypair, save_key, hpk,
              hfiles q hq]
        | none =>
          cases hsk : env.createFileErr (get_key_file_name ⟨name, abs⟩ .secretKey) with
          | some e =>
            refine ⟨?_, fun q hq => ?_⟩
            · simp [init, create_storage_dir, hd, hd1, expand_storage_dir, hcan,
                create_profile, save_profile, hpf, create_keypair, save_key, hpk, hsk]
            · simp [init, create_storage_dir, hd, hd1, expand_storage_dir, hcan,
                create_profile, save_profile, hpf, create_keypair, save_key, hpk, hsk,
                hfiles q hq]
          | none =>
            refine ⟨?_, fun q hq => ?_⟩
            · simp [init, create_storage_dir, hd, hd1, expand_storage_dir, hcan,
                create_profile, save_profile, hpf, create_keypair, save_key, hpk, hsk]
            · simp [init, create_storage_dir, hd, hd1, expand_storage_dir, hcan,
                create_profile, save_profile, hpf, create_keypair, save_key, hpk, hsk,
                hfiles q hq]
  · have hd1 : ¬ storage_dir_exists fs₁ dir := by rw [hsd]; exact hd
    cases hcd : env.createDirErr dir with
    | some e =>
      refine ⟨?_, fun q hq => ?_⟩
      · simp [init, create_storage_dir, hd, hd1, hcd]
      · simp [init, create_storage_dir, hd, hd1, hcd, hfiles q hq]
    | none =>
      cases hcan : env.canonicalize dir with
      | error e =>
        refine ⟨?_, fun q hq => ?_⟩
        · simp [init, create_storage_dir, hd, hd1, hcd, expand_storage_dir, hcan]
        · simp [init, create_storage_dir, hd, hd1, hcd, expand_storage_dir, hcan,
            hfiles q hq]
      | ok abs =>
        cases hpf : env.createFileErr (getProfileFileName env name) with
        | some e =>
          refine ⟨?_, fun q hq => ?_⟩
          · simp [init, create_storage_dir, hd, hd1, hcd, expand_storage_dir, hcan,
              create_profile, save_profile, hpf]
          · simp [init, create_storage_dir, hd, hd1, hcd, expand_storage_dir, hcan,
              create_profile, save_profile, hpf, hfiles q hq]
        | none =>
          cases hpk : env.createFileErr (get_key_file_name ⟨name, abs⟩ .publicKey) with
          | some e =>
            refine ⟨?_, fun q hq => ?_⟩
            · simp [init, create_storage_dir, hd, hd1, hcd, expand_storage_dir, hcan,
                create_profile, save_profile, hpf, create_keypair, save_key, hpk]
            · simp [init, create_storage_dir, hd, hd1, hcd, expand_storage_dir, hcan,
                create_profile, save_profile, hpf, create_keypair, save_key, hpk,
                hfiles q hq]
          | none =>
            cases hsk : env.createFileErr (get_key_file_name ⟨name, abs⟩ .secretKey) with
            | some e =>
              refine ⟨?_, fun q hq => ?_⟩
              · simp [init, create_storage_dir, hd, hd1, hcd, expand_storage_dir,
                  hcan, create_profile, save_profile, hpf, create_keypair, save_key,
                  hpk, hsk]
              · simp [init, create_storage_dir, hd, hd1, hcd, expand_storage_dir,
                  hcan, create_profile, save_profile, hpf, create_keypair, save_key,
                  hpk, hsk, hfiles q hq]
            | none =>
              refine ⟨?_, fun q hq => ?_⟩
              · simp [init, create_storage_dir, hd, hd1, hcd, expand_storage_dir,
                  hcan, create_profile, save_profile, hpf, create_keypair, save_key,
                  hpk, hsk]
              · simp [init, create_storage_dir, hd, hd1, hcd, expand_storage_dir,
                  hcan, create_profile, save_profile, hpf, create_keypair, save_key,
                  hpk, hsk, hfiles q hq]

/-- C10: with `override = true`, `init` performs no profile-existence
check: on two states that differ only at the profile-record path it
returns the same outcome and keeps them in agreement outside that path,
and in particular (given I/O success) it succeeds when no profile record
exists yet. -/
theorem init_override_no_existence_check (env : IOEnv) (fs₁ fs₂ : FS)
    (name dir abs : Str)
    (hfiles : ∀ q, q ≠ getProfileFileName env name → readF fs₁ q = readF fs₂ q)
    (hdirs : fs₁.dirs = fs₂.dirs) :
    ((init env fs₁ name dir true).1 = (init env fs₂ name dir true).1
      ∧ ∀ q, q ≠ getProfileFileName env name →
          readF (init env fs₁ name dir true).2 q
            = readF (init env fs₂ name dir true).2 q)
    ∧ (profile_exists env fs₁ name = false →
       env.createDirErr dir = none →
       env.canonicalize dir = .ok abs →
       env.createFileErr (getProfileFileName env name) = none →
       env.createFileErr (abs ++ '/' :: (name ++ ['.', 'p', 'k'])) = none →
       env.createFileErr (abs ++ '/' :: (name ++ ['.', 's', 'k'])) = none →
       (init env fs₁ name dir true).1 = .ok ()) := by
  refine ⟨init_true_frame env fs₁ fs₂ name dir hfiles hdirs, ?_⟩
  intro _ h1 h2 h3 h4 h5
  rw [init_true_eq env fs₁ name dir abs h1 h2 h3 h4 h5]

/-- C10 witness: on the empty state (no profile record), `init` with
override succeeds and behaves as on any state agreeing away from the
record path. -/
theorem init_override_no_existence_check_witness :
    ((init okEnv ⟨[], []⟩ ['p'] "d".toList true).1
        = (init okEnv ⟨[], []⟩ ['p'] "d".toList true).1
      ∧ ∀ q, q ≠ getProfileFileName okEnv ['p'] →
          readF (init okEnv ⟨[], []⟩ ['p'] "d".toList true).2 q
            = readF (init okEnv ⟨[], []⟩ ['p'] "d".toList true).2 q)
    ∧ (init okEnv ⟨[], []⟩ ['p'] "d".toList true).1 = .ok () := by
  have h := init_override_no_existence_check okEnv ⟨[], []⟩ ⟨[], []⟩
    ['p'] "d".toList "d".toList (fun _ _ => rfl) rfl
  exact ⟨h.1, h.2 (by decide) (by decide) (by decide) (by decide) (by decide) (by decide)⟩

/-- C5: `encrypt` rejects its input with the already-encrypted error
exactly when the path ends in `.cz`, before any other step (the state is
returned untouched), and `decrypt` rejects with the not-an-envelope
error exactly when the path does not end in `.cz`, also first. -/
theorem extension_guards (env : IOEnv) (fs : FS) (pname path dest : Str)
    (ov : Bool) :
    ((encrypt env fs pname path ov).1
        = .error (errNP "Encryption failed because source file was already encrypted by this program (.cz)")
      ↔ endsWithCz path = true)
    ∧ (endsWithCz path = true →
        encrypt env fs pname path ov
          = (.error (errNP "Encryption failed because source file was already encrypted by this program (.cz)"), fs))
    ∧ ((decrypt env fs pname path dest ov).1
        = .error (errNP "Decryption failed because source file was not made by this program (.cz)")
      ↔ endsWithCz path = false)
    ∧ (endsWithCz path = false →
        decrypt env fs pname path dest ov
          = (.error (errNP "Decryption failed because source file was not made by this program (.cz)"), fs)) := by
  have hencT : endsWithCz path = true →
      encrypt env fs pname path ov
        = (.error (errNP "Encryption failed because source file was already encrypted by this program (.cz)"), fs) := by
    intro h
    unfold encrypt
    rw [if_pos h]
  have hdecF : endsWithCz path = false →
      decrypt env fs pname path dest ov
        = (.error (errNP "Decryption failed because source file was not made by this program (.cz)"), fs) := by
    intro h
    unfold decrypt
    rw [if_pos (by simp [h])]
  have hencN : endsWithCz path = false →
      (encrypt env fs pname path ov).1
        ≠ .error (errNP "Encryption failed because source file was already encrypted by this program (.cz)") := by
    intro h hc
    unfold encrypt at hc
    rw [if_neg (by simp [h])] at hc
    split at hc
    · simp [errNP] at hc
    · split at hc
      · simp [errNP, wrapE] at hc
      · split at hc
        · simp [errNP, panicErr] at hc
        · split at hc
          · simp [errNP] at hc
          · split at hc
            · simp [errNP, wrapE] at hc
            · simp at hc
  have hdecN : endsWithCz path = true →
      (decrypt env fs pname path dest ov).1
        ≠ .error (errNP "Decryption failed because source file was not made by this program (.cz)") := by
    intro h hc
    unfold decrypt at hc
    rw [if_neg (by simp [h])] at hc
    split at hc
    · simp [errNP] at hc
    · split at hc
      · simp [errNP, panicErr] at hc
      · split at hc
        · simp [errNP] at hc
        · split at hc
          · simp [errNP, wrapE] at hc
          · split at hc
            · simp [errNP, wrapE] at hc
            · simp at hc
  refine ⟨⟨fun hc => ?_, fun h => by rw [hencT h]⟩, hencT,
    ⟨fun hc => ?_, fun h => by rw [hdecF h]⟩, hdecF⟩
  · cases hq : endsWithCz path with
    | false => exact absurd hc (hencN hq)
    | true => rfl
  · cases hq : endsWithCz path with
    | false => rfl
    | true => exact absurd hc (hdecN hq)

/-- C5 witness: a `.cz` source is rejected by `encrypt` and accepted past
the first guard by `decrypt`, an extensionless source conversely. -/
theorem extension_guards_witness :
    (encrypt okEnv ⟨[], []⟩ ['p'] "a.cz".toList false).1
      = .error (errNP "Encryption failed because source file was already encrypted by this program (.cz)")
    ∧ decrypt okEnv ⟨[], []⟩ ['p'] "a.txt".toList "out".toList false
      = (.error (errNP "Decryption failed because source file was not made by this program (.cz)"), ⟨[], []⟩) := by
  have h := extension_guards okEnv ⟨[], []⟩ ['p'] "a.cz".toList "out".toList false
  have h2 := extension_guards okEnv ⟨[], []⟩ ['p'] "a.txt".toList "out".toList false
  exact ⟨(h.1).mpr (by decide), h2.2.2.2 (by decide)⟩

/-- C8: two runs of the encryption step on the same plaintext and key
pair whose freshly drawn nonces differ (the spec's nonce-freshness
invariant for `box_::gen_nonce`) build envelopes with different nonce
fields and different ciphertext fields. -/
theorem seal_twice_distinct (m n₁ n₂ pk sk : List Nat)
    (h1 : n₁.length = 24) (h2 : n₂.length = 24)
    (hv1 : ValidBytes n₁) (hv2 : ValidBytes n₂)
    (hne : n₁ ≠ n₂) :
    (Cipher.mk n₁ (box_seal m n₁ pk sk)).nonce
      ≠ (Cipher.mk n₂ (box_seal m n₂ pk sk)).nonce
    ∧ (Cipher.mk n₁ (box_seal m n₁ pk sk)).data
      ≠ (Cipher.mk n₂ (box_seal m n₂ pk sk)).data :=
  ⟨hne, box_seal_ne_of_nonce_ne h1 h2 hv1 hv2 hne⟩

/-- C8 witness: two concrete distinct nonces give distinct envelopes for
the same plaintext and key pair. -/
theorem seal_twice_distinct_witness :
    (Cipher.mk (List.replicate 24 0)
        (box_seal [5] (List.replicate 24 0) (List.replicate 32 0) (List.replicate 32 0))).nonce
      ≠ (Cipher.mk (1 :: List.replicate 23 0)
        (box_seal [5] (1 :: List.replicate 23 0) (List.replicate 32 0) (List.replicate 32 0))).nonce
    ∧ (Cipher.mk (List.replicate 24 0)
        (box_seal [5] (List.replicate 24 0) (List.replicate 32 0) (List.replicate 32 0))).data
      ≠ (Cipher.mk (1 :: List.replicate 23 0)
        (box_seal [5] (1 :: List.replicate 23 0) (List.replicate 32 0) (List.replicate 32 0))).data :=
  seal_twice_distinct [5] (List.replicate 24 0) (1 :: List.replicate 23 0)
    (List.replicate 32 0) (List.replicate 32 0)
    (by decide) (by decide) (by decide) (by decide) (by decide)

/-- Lists with distinct last elements are distinct. -/
theorem ne_of_getLast?_ne {l₁ l₂ : Str} {x y : Char}
    (h₁ : l₁.getLast? = some x) (h₂ : l₂.getLast? = some y) (hxy : x ≠ y) :
    l₁ ≠ l₂ := by
  intro hc
  rw [hc, h₂] at h₁
  exact hxy (by injection h₁ with h; exact h.symm)

/-- The last element of an append is that of its nonempty right part. -/
theorem getLast?_append_right {l₁ l₂ : Str} (h : l₂ ≠ []) :
    (l₁ ++ l₂).getLast? = l₂.getLast? := by
  rw [List.getLast?_append]
  cases hl : l₂.getLast? with
  | none => exact absurd (List.getLast?_eq_none_iff.mp hl) h
  | some x => rfl

/-- The last character of an encrypted target path is `z`. -/
theorem getLast?_enc_path (storage nm : Str) :
    (storage ++ '/' :: (nm ++ ['.', 'c', 'z'])).getLast? = some 'z' := by
  rw [show (storage ++ '/' :: (nm ++ ['.', 'c', 'z']))
      = (storage ++ ['/']) ++ (nm ++ ['.', 'c', 'z']) by simp]
  rw [getLast?_append_right (by simp), getLast?_append_right (by simp)]
  rfl

/-- The last character of a key-file path is `k`. -/
theorem getLast?_key_path (storage nm : Str) (key : Key) :
    (storage ++ '/' :: (nm ++ '.' :: keyExt key)).getLast? = some 'k' := by
  cases key with
  | publicKey =>
    rw [show (storage ++ '/' :: (nm ++ '.' :: keyExt Key.publicKey))
        = (storage ++ ['/']) ++ (nm ++ '.' :: keyExt Key.publicKey) by simp]
    rw [getLast?_append_right (by simp), getLast?_append_right (by simp)]
    rfl
  | secretKey =>
    rw [show (storage ++ '/' :: (nm ++ '.' :: keyExt Key.secretKey))
        = (storage ++ ['/']) ++ (nm ++ '.' :: keyExt Key.secretKey) by simp]
    rw [getLast?_append_right (by simp), getLast?_append_right (by simp)]
    rfl

/-- The encryption target computed by `get_encrypted_file_name` is never
the source path itself (the target carries the fresh `.cz` extension). -/
theorem enc_target_ne_source {pr : Profile} {p target : Str}
    (h : get_encrypted_file_name pr p = some target) : target ≠ p := by
  unfold get_encrypted_file_name at h
  cases hfn : fileNameL p with
  | none => rw [hfn] at h; simp at h
  | some nm =>
    rw [hfn] at h
    simp only [Option.map_some'] at h
    have hgood := fileNameL_good hfn
    have hgood' : GoodSeg (nm ++ ['.', 'c', 'z']) := by
      refine ⟨by simp, ?_, ?_, ?_⟩
      · intro hcq
        have := congrArg List.length hcq
        simp at this
      · intro hcq
        have := congrArg List.length hcq
        simp at this
      · intro hcq
        rcases List.mem_append.mp hcq with hm | hm
        · exact hgood.2.2.2 hm
        · simp at hm
    have htarget : target = pr.storage ++ '/' :: (nm ++ ['.', 'c', 'z']) := by
      injection h with h'
      exact h'.symm
    intro hc
    have hfp := fileNameL_concat pr.storage hgood'
    rw [← htarget, hc, hfn] at hfp
    rw [Option.some.injEq] at hfp
    have hlen := congrArg List.length hfp
    simp at hlen

/-- C9 (amended): a successful `encrypt_file` leaves the source file's
content unchanged (its target always differs from the source), and a
successful `decrypt_file` leaves the source envelope unchanged provided
the computed target path differs from the source path — which can fail
for a dot-file envelope decrypted into its own directory, see the
counterexample. -/
theorem file_frame_properties (env : IOEnv) (fs : FS) (pr : Profile)
    (p dest : Str) :
    ((encrypt_file env fs pr p).1 = .ok () →
      readF (encrypt_file env fs pr p).2 p = readF fs p)
    ∧ (∀ target, get_decrypted_file_name p dest = some target → target ≠ p →
        (decrypt_file env fs pr p dest).1 = .ok () →
        readF (decrypt_file env fs pr p dest).2 p = readF fs p) := by
  constructor
  · intro h
    cases hkp : read_keypair fs pr with
    | error e => simp [encrypt_file, hkp] at h
    | ok pksk =>
      obtain ⟨pk, sk⟩ := pksk
      cases hrd : readF fs p with
      | none => simp [encrypt_file, hkp, hrd] at h
      | some fd =>
        cases hgt : get_encrypted_file_name pr p with
        | none => simp [encrypt_file, hkp, hrd, hgt] at h
        | some target =>
          cases hcf : env.createFileErr target with
          | some e =>
            simp [encrypt_file, hkp, hrd, hgt, save_encrypted_file, hcf] at h
          | none =>
            have hne : p ≠ target := fun hc => (enc_target_ne_source hgt) hc.symm
            simp [encrypt_file, hkp, hrd, hgt, save_encrypted_file, hcf, hne]
  · intro target htgt hne h
    cases hkp : read_keypair fs pr with
    | error e => simp [decrypt_file, hkp] at h
    | ok pksk =>
      obtain ⟨pk, sk⟩ := pksk
      cases hrd : readF fs p with
      | none => simp [decrypt_file, hkp, hrd] at h
      | some fd =>
        cases hds : deserializeCipher (fdBytes fd) with
        | none => simp [decrypt_file, hkp, hrd, hds] at h
        | some cipher =>
          cases hop : box_open cipher.data cipher.nonce pk sk with
          | none => simp [decrypt_file, hkp, hrd, hds, hop] at h
          | some plain =>
            cases hpd : parentDir target with
            | none =>
              simp [decrypt_file, hkp, hrd, hds, hop, htgt,
                save_decrypted_file, hpd] at h
            | some parent =>
              have hne' : p ≠ target := fun hc => hne hc.symm
              cases hcf : env.createFileErr target with
              | some e =>
                by_cases hex : existsF fs parent
                · simp [decrypt_file, hkp, hrd, hds, hop, htgt,
                    save_decrypted_file, hpd, create_dir_if_not_exists, hex, hcf] at h
                · cases hcd : env.createDirErr parent with
                  | some e2 =>
                    simp [decrypt_file, hkp, hrd, hds, hop, htgt,
                      save_decrypted_file, hpd, create_dir_if_not_exists, hex, hcd] at h
                  | none =>
                    simp [decrypt_file, hkp, hrd, hds, hop, htgt,
                      save_decrypted_file, hpd, create_dir_if_not_exists, hex, hcd, hcf] at h
              | none =>
                by_cases hex : existsF fs parent
                · simp [decrypt_file, hkp, hrd, hds, hop, htgt,
                    save_decrypted_file, hpd, create_dir_if_not_exists, hex, hcf, hne']
                · cases hcd : env.createDirErr parent with
                  | some e2 =>
                    simp [decrypt_file, hkp, hrd, hds, hop, htgt,
                      save_decrypted_file, hpd, create_dir_if_not_exists, hex, hcd] at h
                  | none =>
                    simp [decrypt_file, hkp, hrd, hds, hop, htgt,
                      save_decrypted_file, hpd, create_dir_if_not_exists, hex, hcd,
                      hcf, hne']

/-! ## Helper lemmas for the round-trip and tamper claims -/

/-- A slash-free segment with the `.cz` extension appended is a good
final path component. -/
theorem goodSeg_cz {S : Str} (hs : '/' ∉ S) : GoodSeg (S ++ ['.', 'c', 'z']) := by
  refine ⟨by simp, ?_, ?_, ?_⟩
  · intro h
    have := congrArg List.length h
    simp at this
  · intro h
    have := congrArg List.length h
    simp at this
  · intro h
    rcases List.mem_append.mp h with h | h
    · exact hs h
    · simp at h

/-- Reading a key pair stored base64-encoded in the two key files
succeeds and returns the raw 32-byte halves. -/
theorem read_keypair_ok {fs : FS} {pr : Profile} {kp : KeyPair}
    (hpk32 : kp.pk.length = 32) (hsk32 : kp.sk.length = 32)
    (hpkv : ValidBytes kp.pk) (hskv : ValidBytes kp.sk)
    (h1 : readF fs (get_key_file_name pr .publicKey)
      = some (.text (base64Encode kp.pk)))
    (h2 : readF fs (get_key_file_name pr .secretKey)
      = some (.text (base64Encode kp.sk))) :
    read_keypair fs pr = .ok (kp.pk, kp.sk) := by
  simp [read_keypair, read_key, h1, h2,
    base64Decode_base64Encode hpkv, base64Decode_base64Encode hskv, hpk32, hsk32]

theorem box_seal_valid {m : List Nat} (n pk sk : List Nat) (hmv : ValidBytes m) :
    ValidBytes (box_seal m n pk sk) := by
  intro b hb
  unfold box_seal at hb
  rcases List.mem_append.mp hb with h | h
  · exact sxor_valid _ _ _ hmv b h
  · exact toBytesF_valid _ _ b h

theorem getD_lt_of_valid {l : List Nat} {i : Nat} (hv : ValidBytes l)
    (hi : i < l.length) : l.getD i 0 < 256 := by
  rw [List.getD_eq_getElem _ _ hi]
  exact hv _ (List.getElem_mem hi)

/-- Flipping one bit changes the byte. -/
theorem xor_pow_ne (b bit : Nat) : b ^^^ 2 ^ bit ≠ b := by
  intro h
  have h2 := congrArg (fun y => b ^^^ y) h
  simp only [Nat.xor_cancel_left, Nat.xor_self] at h2
  exact absurd h2 (by positivity)

/-- Flipping one of the 8 bits keeps the value a byte. -/
theorem xor_pow_lt {b : Nat} (hb : b < 256) {bit : Nat} (hbit : bit < 8) :
    b ^^^ 2 ^ bit < 256 := by
  have h1 : 2 ^ bit < 2 ^ 8 := Nat.pow_lt_pow_right (by norm_num) hbit
  have := Nat.xor_lt_two_pow (n := 8) (by simpa using hb) (by simpa using h1)
  simpa using this

/-- Replacing an entry by a different value changes the list. -/
theorem set_ne_self {l : List Nat} {i b' : Nat} (hi : i < l.length)
    (hne : b' ≠ l.getD i 0) : l.set i b' ≠ l := by
  intro hc
  have h := congrArg (fun t => t.getD i 0) hc
  simp only at h
  rw [List.getD_eq_getElem _ _ (by simpa using hi), List.getElem_set_self,
    List.getD_eq_getElem _ _ hi] at h
  rw [List.getD_eq_getElem _ _ hi] at hne
  exact hne h

/-- C1: sealing a byte buffer under a key pair and opening the resulting
envelope with the same key pair returns exactly that buffer —
`encrypt_file` writes the envelope of `m`, and `decrypt_file` on that
envelope with the same profile succeeds and writes back exactly `m`. -/
theorem encrypt_decrypt_roundtrip
    (env₁ env₂ : IOEnv) (fs : FS) (pr : Profile) (p dest N : Str)
    (kp : KeyPair) (m : List Nat)
    (hpk32 : kp.pk.length = 32) (hsk32 : kp.sk.length = 32)
    (hpkv : ValidBytes kp.pk) (hskv : ValidBytes kp.sk)
    (hkf1 : readF fs (get_key_file_name pr .publicKey)
      = some (.text (base64Encode kp.pk)))
    (hkf2 : readF fs (get_key_file_name pr .secretKey)
      = some (.text (base64Encode kp.sk)))
    (hsrc : readF fs p = some (.bytes m))
    (hfn : fileNameL p = some N)
    (hn24 : env₁.genNonce.length = 24)
    (hmlen : m.length + 26 < 256 ^ 8)
    (hcf1 : env₁.createFileErr (pr.storage ++ '/' :: (N ++ ['.', 'c', 'z'])) = none)
    (hcd2 : env₂.createDirErr dest = none)
    (hcf2 : env₂.createFileErr (dest ++ '/' :: N) = none) :
    encrypt_file env₁ fs pr p
      = (.ok (), writeF fs (pr.storage ++ '/' :: (N ++ ['.', 'c', 'z']))
          (.bytes (serializeCipher
            ⟨env₁.genNonce, box_seal m env₁.genNonce kp.pk kp.sk⟩)))
    ∧ ∀ fs2 : FS,
        fs2 = writeF fs (pr.storage ++ '/' :: (N ++ ['.', 'c', 'z']))
          (.bytes (serializeCipher
            ⟨env₁.genNonce, box_seal m env₁.genNonce kp.pk kp.sk⟩)) →
        ∃ fsd : FS,
          decrypt_file env₂ fs2 pr (pr.storage ++ '/' :: (N ++ ['.', 'c', 'z'])) dest
            = (.ok (), writeF fsd (dest ++ '/' :: N) (.bytes m))
          ∧ readF (writeF fsd (dest ++ '/' :: N) (.bytes m)) (dest ++ '/' :: N)
            = some (.bytes m) := by
  have hkp := read_keypair_ok hpk32 hsk32 hpkv hskv hkf1 hkf2
  have hgood := fileNameL_good hfn
  constructor
  · have hget : get_encrypted_file_name pr p
        = some (pr.storage ++ '/' :: (N ++ ['.', 'c', 'z'])) := by
      unfold get_encrypted_file_name
      rw [hfn]
      rfl
    simp [encrypt_file, hkp, hsrc, hget, save_encrypted_file, hcf1, fdBytes]
  · intro fs2 hfs2
    refine ⟨if existsF fs2 dest then fs2 else mkdirF fs2 dest, ?_, by simp⟩
    have hnepk : get_key_file_name pr .publicKey
        ≠ pr.storage ++ '/' :: (N ++ ['.', 'c', 'z']) :=
      ne_of_getLast?_ne (getLast?_key_path _ _ _) (getLast?_enc_path _ _) (by decide)
    have hnesk : get_key_file_name pr .secretKey
        ≠ pr.storage ++ '/' :: (N ++ ['.', 'c', 'z']) :=
      ne_of_getLast?_ne (getLast?_key_path _ _ _) (getLast?_enc_path _ _) (by decide)
    have hkf1' : readF fs2 (get_key_file_name pr .publicKey)
        = some (.text (base64Encode kp.pk)) := by
      rw [hfs2]
      simp [hnepk, hkf1]
    have hkf2' : readF fs2 (get_key_file_name pr .secretKey)
        = some (.text (base64Encode kp.sk)) := by
      rw [hfs2]
      simp [hnesk, hkf2]
    have hkp' := read_keypair_ok hpk32 hsk32 hpkv hskv hkf1' hkf2'
    have hread : readF fs2 (pr.storage ++ '/' :: (N ++ ['.', 'c', 'z']))
        = some (.bytes (serializeCipher
          ⟨env₁.genNonce, box_seal m env₁.genNonce kp.pk kp.sk⟩)) := by
      rw [hfs2]
      simp
    have hdeser : deserializeCipher (serializeCipher
        ⟨env₁.genNonce, box_seal m env₁.genNonce kp.pk kp.sk⟩)
        = some ⟨env₁.genNonce, box_seal m env₁.genNonce kp.pk kp.sk⟩ :=
      deserializeCipher_serializeCipher hn24
        (by rw [show (Cipher.mk env₁.genNonce
            (box_seal m env₁.genNonce kp.pk kp.sk)).data
            = box_seal m env₁.genNonce kp.pk kp.sk from rfl, box_seal_length]
            exact hmlen)
    have hopen : box_open (box_seal m env₁.genNonce kp.pk kp.sk)
        env₁.genNonce kp.pk kp.sk = some m := box_open_box_seal _ _ _ _
    have hgdf : get_decrypted_file_name
        (pr.storage ++ '/' :: (N ++ ['.', 'c', 'z'])) dest
        = some (dest ++ '/' :: N) := by
      unfold get_decrypted_file_name
      rw [fileNameL_concat _ (goodSeg_cz hgood.2.2.2)]
      simp [stemOf_append_cz hgood.1]
    have hpar : parentDir (dest ++ '/' :: N) = some dest :=
      parentDir_concat dest hgood.1 hgood.2.2.2
    by_cases hex : existsF fs2 dest
    · simp [decrypt_file, hkp', hread, fdBytes, hdeser, hopen, hgdf,
        save_decrypted_file, hpar, create_dir_if_not_exists, hex, hcd2, hcf2]
    · simp [decrypt_file, hkp', hread, fdBytes, hdeser, hopen, hgdf,
        save_decrypted_file, hpar, create_dir_if_not_exists, hex, hcd2, hcf2]

/-- Test fixture: a store holding the all-zero key pair of profile `p`
(storage `st`) and a one-byte plaintext file `f.txt`. -/
def rtStore : FS :=
  ⟨[("f.txt".toList, .bytes [7]),
    ("st/p.pk".toList, .text (base64Encode (List.replicate 32 0))),
    ("st/p.sk".toList, .text (base64Encode (List.replicate 32 0)))], []⟩

/-- C1 witness: encrypting the one-byte file `f.txt` for profile `p`
and decrypting the produced envelope into `out` returns exactly the
original byte. -/
theorem encrypt_decrypt_roundtrip_witness :
    encrypt_file okEnv rtStore ⟨['p'], "st".toList⟩ "f.txt".toList
      = (.ok (), writeF rtStore
          ("st".toList ++ '/' :: ("f.txt".toList ++ ['.', 'c', 'z']))
          (.bytes (serializeCipher ⟨okEnv.genNonce,
            box_seal [7] okEnv.genNonce (List.replicate 32 0) (List.replicate 32 0)⟩)))
    ∧ ∀ fs2 : FS,
        fs2 = writeF rtStore
          ("st".toList ++ '/' :: ("f.txt".toList ++ ['.', 'c', 'z']))
          (.bytes (serializeCipher ⟨okEnv.genNonce,
            box_seal [7] okEnv.genNonce (List.replicate 32 0) (List.replicate 32 0)⟩)) →
        ∃ fsd : FS,
          decrypt_file okEnv fs2 ⟨['p'], "st".toList⟩
            ("st".toList ++ '/' :: ("f.txt".toList ++ ['.', 'c', 'z'])) "out".toList
            = (.ok (), writeF fsd ("out".toList ++ '/' :: "f.txt".toList) (.bytes [7]))
          ∧ readF (writeF fsd ("out".toList ++ '/' :: "f.txt".toList) (.bytes [7]))
              ("out".toList ++ '/' :: "f.txt".toList)
            = some (.bytes [7]) :=
  encrypt_decrypt_roundtrip okEnv okEnv rtStore ⟨['p'], "st".toList⟩
    "f.txt".toList "out".toList "f.txt".toList
    ⟨List.replicate 32 0, List.replicate 32 0⟩ [7]
    (by decide) (by decide) (by decide) (by decide) (by decide) (by decide)
    (by decide) (by decide) (by decide) (by decide) (by decide) (by decide)
    (by decide)

/-- Test fixture: a store holding an envelope named `a/.cz` (a dot-file
whose stem is itself) and the key files of profile `p`. -/
def dotCzStore : FS :=
  ⟨[("a/.cz".toList, .bytes (serializeCipher ⟨List.replicate 24 0,
      box_seal [] (List.replicate 24 0) (List.replicate 32 0) (List.replicate 32 0)⟩)),
    ("st/p.pk".toList, .text (base64Encode (List.replicate 32 0))),
    ("st/p.sk".toList, .text (base64Encode (List.replicate 32 0)))],
   ["a".toList]⟩

/-- C9 counterexample: decrypting the envelope `a/.cz` into destination
`a` succeeds and overwrites the source envelope itself (its computed
target path equals the source path), so a successful decrypt can change
the source envelope's content. -/
theorem decrypt_overwrites_source_counterexample :
    decrypt_file okEnv dotCzStore ⟨['p'], "st".toList⟩ "a/.cz".toList ['a']
      = (.ok (), writeF dotCzStore "a/.cz".toList (.bytes []))
    ∧ readF (writeF dotCzStore "a/.cz".toList (.bytes [])) "a/.cz".toList
      ≠ readF dotCzStore "a/.cz".toList := by
  constructor
  · decide
  · decide

/-- Test fixture: a store holding the envelope of `[7]` at
`st/f.txt.cz`, the key files of profile `p`, and a directory `out`. -/
def envStore : FS :=
  ⟨[("st/f.txt.cz".toList, .bytes (serializeCipher ⟨List.replicate 24 0,
      box_seal [7] (List.replicate 24 0) (List.replicate 32 0) (List.replicate 32 0)⟩)),
    ("st/p.pk".toList, .text (base64Encode (List.replicate 32 0))),
    ("st/p.sk".toList, .text (base64Encode (List.replicate 32 0)))],
   ["out".toList]⟩

/-- C9 witness: a successful encrypt leaves its source file unchanged,
and a successful decrypt whose target differs from its source leaves the
envelope unchanged. -/
theorem file_frame_properties_witness :
    readF (encrypt_file okEnv rtStore ⟨['p'], "st".toList⟩ "f.txt".toList).2
        "f.txt".toList
      = readF rtStore "f.txt".toList
    ∧ readF (decrypt_file okEnv envStore ⟨['p'], "st".toList⟩
          "st/f.txt.cz".toList "out".toList).2 "st/f.txt.cz".toList
      = readF envStore "st/f.txt.cz".toList := by
  have h1 := file_frame_properties okEnv rtStore ⟨['p'], "st".toList⟩
    "f.txt".toList "out".toList
  have h2 := file_frame_properties okEnv envStore ⟨['p'], "st".toList⟩
    "st/f.txt.cz".toList "out".toList
  exact ⟨h1.1 (by decide),
    h2.2 "out/f.txt".toList (by decide) (by decide) (by decide)⟩

/-- C2: flipping any single bit of the nonce bytes or of the ciphertext
bytes of a serialized envelope produced by sealing makes deserialisation
followed by opening under the original key pair return `none` — an
authentication failure with no plaintext at all. -/
theorem bitflip_auth_fails (pk sk n m : List Nat) (i bit : Nat)
    (hn24 : n.length = 24) (hnv : ValidBytes n) (hmv : ValidBytes m)
    (hbit : bit < 8)
    (hmlen : m.length + 26 < 256 ^ 8)
    (hregion : i < 24
      ∨ (32 ≤ i ∧ i < (serializeCipher ⟨n, box_seal m n pk sk⟩).length)) :
    (deserializeCipher ((serializeCipher ⟨n, box_seal m n pk sk⟩).set i
        ((serializeCipher ⟨n, box_seal m n pk sk⟩).getD i 0 ^^^ 2 ^ bit))).bind
      (fun c => box_open c.data c.nonce pk sk) = none := by
  have hdlen := box_seal_length m n pk sk
  have hdval := box_seal_valid n pk sk hmv
  have hsdef : serializeCipher ⟨n, box_seal m n pk sk⟩
      = n ++ (toBytesF 8 (box_seal m n pk sk).length ++ box_seal m n pk sk) := by
    rw [show serializeCipher ⟨n, box_seal m n pk sk⟩
        = n ++ toBytesF 8 (box_seal m n pk sk).length ++ box_seal m n pk sk from rfl,
      List.append_assoc]
  rcases hregion with hi | ⟨hi32, hilen⟩
  · have hb : (serializeCipher ⟨n, box_seal m n pk sk⟩).getD i 0 = n.getD i 0 := by
      rw [hsdef]
      exact List.getD_append _ _ _ _ (by omega)
    have hbv : n.getD i 0 < 256 := getD_lt_of_valid hnv (by omega)
    have hset : (serializeCipher ⟨n, box_seal m n pk sk⟩).set i
        ((serializeCipher ⟨n, box_seal m n pk sk⟩).getD i 0 ^^^ 2 ^ bit)
        = (n.set i (n.getD i 0 ^^^ 2 ^ bit))
          ++ (toBytesF 8 (box_seal m n pk sk).length ++ box_seal m n pk sk) := by
      rw [hb, hsdef]
      exact List.set_append_left _ _ (by omega)
    have hdeser : deserializeCipher ((n.set i (n.getD i 0 ^^^ 2 ^ bit))
        ++ (toBytesF 8 (box_seal m n pk sk).length ++ box_seal m n pk sk))
        = some ⟨n.set i (n.getD i 0 ^^^ 2 ^ bit), box_seal m n pk sk⟩ := by
      have h := deserializeCipher_serializeCipher
        (c := ⟨n.set i (n.getD i 0 ^^^ 2 ^ bit), box_seal m n pk sk⟩)
        (by simpa using hn24) (by rw [show (Cipher.mk (n.set i (n.getD i 0 ^^^ 2 ^ bit))
          (box_seal m n pk sk)).data = box_seal m n pk sk from rfl, hdlen]; exact hmlen)
      rw [show serializeCipher ⟨n.set i (n.getD i 0 ^^^ 2 ^ bit), box_seal m n pk sk⟩
          = (n.set i (n.getD i 0 ^^^ 2 ^ bit))
            ++ toBytesF 8 (box_seal m n pk sk).length ++ box_seal m n pk sk from rfl,
        List.append_assoc] at h
      exact h
    rw [hset, hdeser]
    simp only [Option.some_bind]
    show box_open (box_seal m n pk sk) (n.set i (n.getD i 0 ^^^ 2 ^ bit)) pk sk = none
    apply box_open_wrong_nonce hn24 (by simpa using hn24) hnv
    · intro x hx
      rcases List.mem_or_eq_of_mem_set hx with h | h
      · exact hnv x h
      · subst h
        exact xor_pow_lt hbv hbit
    · exact set_ne_self (by omega) (xor_pow_ne _ _)
  · have hslen : (serializeCipher ⟨n, box_seal m n pk sk⟩).length
        = 32 + (box_seal m n pk sk).length := by
      rw [hsdef]
      simp [hn24]
      omega
    have hj : i - 32 < (box_seal m n pk sk).length := by omega
    have hb : (serializeCipher ⟨n, box_seal m n pk sk⟩).getD i 0
        = (box_seal m n pk sk).getD (i - 32) 0 := by
      rw [hsdef]
      rw [List.getD_append_right _ _ _ _ (by omega)]
      rw [List.getD_append_right _ _ _ _ (by simp; omega)]
      congr 1
      simp [hn24]
      omega
    have hbv : (box_seal m n pk sk).getD (i - 32) 0 < 256 := getD_lt_of_valid hdval hj
    have hidx : i - n.length - (toBytesF 8 (box_seal m n pk sk).length).length
        = i - 32 := by
      simp only [toBytesF_length, hn24]
      omega
    have hset : (serializeCipher ⟨n, box_seal m n pk sk⟩).set i
        ((serializeCipher ⟨n, box_seal m n pk sk⟩).getD i 0 ^^^ 2 ^ bit)
        = n ++ (toBytesF 8 (box_seal m n pk sk).length
            ++ (box_seal m n pk sk).set (i - 32)
              ((box_seal m n pk sk).getD (i - 32) 0 ^^^ 2 ^ bit)) := by
      rw [hb, hsdef]
      rw [List.set_append_right _ _ (by omega)]
      rw [List.set_append_right _ _ (by simp; omega)]
      rw [show i - n.length - (toBytesF 8 (box_seal m n pk sk).length).length
          = i - 32 from hidx]
    have hdeser : deserializeCipher (n ++ (toBytesF 8 (box_seal m n pk sk).length
        ++ (box_seal m n pk sk).set (i - 32)
          ((box_seal m n pk sk).getD (i - 32) 0 ^^^ 2 ^ bit)))
        = some ⟨n, (box_seal m n pk sk).set (i - 32)
            ((box_seal m n pk sk).getD (i - 32) 0 ^^^ 2 ^ bit)⟩ := by
      have h := deserializeCipher_serializeCipher
        (c := ⟨n, (box_seal m n pk sk).set (i - 32)
          ((box_seal m n pk sk).getD (i - 32) 0 ^^^ 2 ^ bit)⟩)
        hn24 (by simp [hdlen]; omega)
      rw [show serializeCipher ⟨n, (box_seal m n pk sk).set (i - 32)
          ((box_seal m n pk sk).getD (i - 32) 0 ^^^ 2 ^ bit)⟩
          = n ++ toBytesF 8 ((box_seal m n pk sk).set (i - 32)
              ((box_seal m n pk sk).getD (i - 32) 0 ^^^ 2 ^ bit)).length
            ++ (box_seal m n pk sk).set (i - 32)
              ((box_seal m n pk sk).getD (i - 32) 0 ^^^ 2 ^ bit) from rfl,
        List.length_set, List.append_assoc] at h
      exact h
    rw [hset, hdeser]
    simp only [Option.some_bind]
    show box_open ((box_seal m n pk sk).set (i - 32)
        ((box_seal m n pk sk).getD (i - 32) 0 ^^^ 2 ^ bit)) n pk sk = none
    by_cases hjm : i - 32 < m.length
    · exact box_open_set_body hjm (xor_pow_lt hbv hbit) hmv hn24 hnv (xor_pow_ne _ _)
    · have hsplit : i - 32 = m.length + (i - 32 - m.length) := by omega
      rw [hsplit]
      exact box_open_set_tag (by omega) (xor_pow_ne _ _)

/-- C2 witness: flipping the lowest bit of the first nonce byte of a
concrete sealed envelope makes opening fail with no plaintext. -/
theorem bitflip_auth_fails_witness :
    (deserializeCipher ((serializeCipher ⟨List.replicate 24 0,
        box_seal [7] (List.replicate 24 0) (List.replicate 32 0)
          (List.replicate 32 0)⟩).set 0
        ((serializeCipher ⟨List.replicate 24 0,
          box_seal [7] (List.replicate 24 0) (List.replicate 32 0)
            (List.replicate 32 0)⟩).getD 0 0 ^^^ 2 ^ 0))).bind
      (fun c => box_open c.data c.nonce (List.replicate 32 0)
        (List.replicate 32 0)) = none :=
  bitflip_auth_fails (List.replicate 32 0) (List.replicate 32 0)
    (List.replicate 24 0) [7] 0 0 (by decide) (by decide) (by decide)
    (by decide) (by decide) (Or.inl (by decide))

end MoySekret
